import Mathlib

/-!
Verification development for the CreatureBox web backend (src/web/app.py).

The Python source is shallowly embedded below:

* string values handled by the `csv` module are modelled as atomic
  `String`s (the csv layer round-trips arbitrary field contents);
* the flat `key=value` control file is modelled at the character level
  (`List Char`), with `str.strip()` and `str.split('=')` re-implemented,
  because those operations decide the control-file semantics;
* Python floats are modelled as exact rationals (all constants that the
  claims mention — 45.0, 80.0, 25.0, 40.0, 1000.0, 5.0 — are exactly
  representable, and no claim depends on binary rounding);
* a fallible Python expression is an `Except PErr` value supplied by an
  environment record, and a `try/except` block is `pyTry`;
* the MJPEG generator is modelled as the finite trace of events one
  execution of the generator produces, together with the module-level
  camera handle state.
-/

/-- Error token for a raised-and-caught Python exception. -/
inductive PErr where
  | err : PErr
deriving DecidableEq, Repr

/-- A Python `try: body except: fallback` around a whole function body. -/
def pyTry {α : Type} (x : Except PErr α) (fallback : α) : α :=
  match x with
  | .ok a => a
  | .error _ => fallback

/-- Boolean success test for `Except`. -/
def exOk {α : Type} : Except PErr α → Bool
  | .ok _ => true
  | .error _ => false

/-- Python `dict` assignment `d[k] = v`: replace in place if the key is
present (keeping its position), append otherwise. -/
def dictSet {α β : Type} [DecidableEq α] : List (α × β) → α → β → List (α × β)
  | [], k, v => [(k, v)]
  | (k', v') :: rest, k, v =>
      if k' = k then (k, v) :: rest else (k', v') :: dictSet rest k v

/-- Python `dict` lookup (first match; dictionaries built with `dictSet`
have unique keys). -/
def dictFind {α β : Type} [DecidableEq α] : List (α × β) → α → Option β
  | [], _ => none
  | (k', v) :: rest, k => if k' = k then some v else dictFind rest k

/-- Build a dict from a list of pairs, later pairs overwriting earlier. -/
def dictOfPairs {α β : Type} [DecidableEq α] (ps : List (α × β)) : List (α × β) :=
  ps.foldl (fun d p => dictSet d p.1 p.2) []

/-- Value of the last pair with the given key. -/
def lastVal {α β : Type} [DecidableEq α] (ps : List (α × β)) (k : α) : Option β :=
  dictFind ps.reverse k

/-- `List.mapM` in the `Option` monad, written out: `none` as soon as one
element fails (a raised exception aborting a Python loop). -/
def mapO {α β : Type} (f : α → Option β) : List α → Option (List β)
  | [] => some []
  | a :: as =>
      match f a, mapO f as with
      | some b, some bs => some (b :: bs)
      | _, _ => none

/-! ## Character-level modelling of `str.strip` and `str.split('=')` -/

/-- Whitespace as removed by Python `str.strip()` (the characters that
occur in this code base's files). -/
def isSpaceC (c : Char) : Bool :=
  c = ' ' || c = '\t' || c = '\n' || c = '\r'

/-- Python `str.strip()`. -/
def stripChars (l : List Char) : List Char :=
  ((l.dropWhile isSpaceC).reverse.dropWhile isSpaceC).reverse

/-- Python `str.split('=')`: split on every `'='`; always at least one
part; an input without `'='` gives exactly one part. -/
def splitEq : List Char → List (List Char)
  | [] => [[]]
  | c :: rest =>
      if c = '=' then [] :: splitEq rest
      else
        match splitEq rest with
        | [] => [[c]]
        | p :: ps => (c :: p) :: ps

/-! ## Config Store, `key=value` format (`read_control_values` /
`write_control_values`, app.py lines 112–148)

A file on disk is `Option (List (List Char))`: `none` is a missing or
unreadable file, otherwise the list of its lines (without newline
terminators, which `f.write(f"{line}\n")` re-adds uniformly). -/

/-- One parse step of `read_control_values`:
`key, value = line.strip().split('=')` — succeeds only when the stripped
line splits into exactly two parts. -/
def parseLineKV (l : List Char) : Option (List Char × List Char) :=
  match splitEq (stripChars l) with
  | [k, v] => some (k, v)
  | _ => none

/-- `read_control_values` (app.py 112–123): any unparsable line (or a
missing file) makes the whole read return the empty mapping. -/
def read_control_values (file : Option (List (List Char))) :
    List (List Char × List Char) :=
  match file with
  | none => []
  | some lines =>
      match mapO parseLineKV lines with
      | none => []
      | some ps => dictOfPairs ps

/-- Update step of `write_control_values`: the stored line is already
stripped; `key, _ = line.split('=')` requires exactly two parts, then the
line is replaced by `f"{key}={values[key]}"` when the key is being
updated. -/
def updLineKV (u : List (List Char × List Char)) (l : List Char) :
    Option (List Char) :=
  match splitEq l with
  | [k, _v] =>
      some (match dictFind u k with
            | some nv => k ++ '=' :: nv
            | none => l)
  | _ => none

/-- `write_control_values` (app.py 125–148): read all lines (stripped),
update matching ones in memory, only then rewrite the file; any failure
before the rewrite leaves the file unchanged and returns `false`. -/
def write_control_values (file : Option (List (List Char)))
    (u : List (List Char × List Char)) :
    Bool × Option (List (List Char)) :=
  match file with
  | none => (false, none)
  | some lines =>
      let ex := lines.map stripChars
      match mapO (updLineKV u) ex with
      | none => (false, some lines)
      | some ex' => (true, some ex')

/-! ## Config Store, tabular CSV format (`read_csv_settings` /
`write_csv_settings`, app.py lines 72–110)

A CSV file is its header (the `DictReader` fieldnames) plus its data rows;
field contents are atomic strings (the `csv` module round-trips them). -/

structure CsvFile where
  header : List String
  rows : List (List String)
deriving DecidableEq, Repr

/-- The `csv.DictReader` row dictionary: fieldnames zipped with the row's
cells (rows are rectangular in every claim considered here). -/
def rowDict (header : List String) (r : List String) : List (String × String) :=
  dictOfPairs (header.zip r)

/-- `read_csv_settings` (app.py 72–83):
`settings[row['SETTING']] = row['VALUE']` per row; a `KeyError` (or a
missing file) makes the whole read return the empty mapping. -/
def csvReadRows (header : List String) :
    List (List String) → List (String × String) → Option (List (String × String))
  | [], acc => some acc
  | r :: rs, acc =>
      match dictFind (rowDict header r) "SETTING",
            dictFind (rowDict header r) "VALUE" with
      | some k, some v => csvReadRows header rs (dictSet acc k v)
      | _, _ => none

def read_csv_settings (file : Option CsvFile) : List (String × String) :=
  match file with
  | none => []
  | some f =>
      match csvReadRows f.header f.rows [] with
      | none => []
      | some s => s

/-- In-memory update step of `write_csv_settings`:
`if row['SETTING'] in settings: row['VALUE'] = settings[row['SETTING']]`.
`none` is the `KeyError` on a row without a `SETTING` field. -/
def updRowCsv (u : List (String × String)) (d : List (String × String)) :
    Option (List (String × String)) :=
  match dictFind d "SETTING" with
  | none => none
  | some s =>
      some (match dictFind u s with
            | some v => dictSet d "VALUE" v
            | none => d)

/-- `csv.DictWriter.writerow`: fails (ValueError) when the row dict holds
a key outside the fieldnames, else emits the cells in fieldname order
(missing keys become the empty-string restval). -/
def writerow (fields : List String) (d : List (String × String)) :
    Option (List String) :=
  if d.all (fun kv => decide (kv.1 ∈ fields)) then
    some (fields.map (fun fn => (dictFind d fn).getD ""))
  else none

/-- `csv.DictWriter.writerows` on an already-truncated file: rows are
written one at a time; on the first bad row the rows written so far
remain on disk and the exception propagates. -/
def writerowsSeq (fields : List String) :
    List (List (String × String)) → Except (List (List String)) (List (List String))
  | [] => .ok []
  | d :: ds =>
      match writerow fields d with
      | none => .error []
      | some r =>
          match writerowsSeq fields ds with
          | .ok rs => .ok (r :: rs)
          | .error rs => .error (r :: rs)

/-- `write_csv_settings` (app.py 85–110): read every row, update values in
memory, then reopen the file for writing (truncating it) and write header
plus rows. A failure during the read/update phase leaves the file
untouched; a `writerows` failure leaves a truncated file. Returns the
success flag together with the resulting on-disk state. -/
def write_csv_settings (file : Option CsvFile) (u : List (String × String)) :
    Bool × Option CsvFile :=
  match file with
  | none => (false, none)
  | some f =>
      let dicts := f.rows.map (rowDict f.header)
      match mapO (updRowCsv u) dicts with
      | none => (false, some f)
      | some dicts' =>
          match writerowsSeq f.header dicts' with
          | .error partRows => (false, some ⟨f.header, partRows⟩)
          | .ok rows' => (true, some ⟨f.header, rows'⟩)

/-! ## Camera Resource Manager (`init_camera` / `release_camera` /
`generate_camera_frames`, app.py lines 546–625)

One run of the generator is modelled as the finite trace of events it
produces, plus the final value of the module-level `camera` handle. -/

/-- Events of one generator execution. `lockAcq`/`lockRel` delimit the
regions where `camera_lock` is held. -/
inductive Ev where
  | lockAcq | lockRel
  | capture | encode
  | yieldFrame (f : Nat)
  | yieldDiag (msg : String)
  | sleep
  | camErr
  | releaseCam
deriving DecidableEq, Repr

/-- Items the stream consumer receives. -/
inductive Item where
  | frame (f : Nat)
  | diag (msg : String)
deriving DecidableEq, Repr

/-- The items of a trace, in order. -/
def itemsOf (tr : List Ev) : List Item :=
  tr.filterMap (fun e =>
    match e with
    | .yieldFrame f => some (Item.frame f)
    | .yieldDiag m => some (Item.diag m)
    | _ => none)

/-- The module-level `camera` global. -/
structure CamState where
  camera : Option Nat
deriving DecidableEq, Repr

/-- `init_camera` (app.py 546–570) with `CV2_AVAILABLE` known true:
releases any previous handle, opens the device; on open failure the
handle is set back to `None` and `False` is returned. -/
def init_camera (openOk : Bool) (_s : CamState) : CamState × Bool :=
  if openOk then ({ camera := some 0 }, true) else ({ camera := none }, false)

/-- `release_camera` (app.py 572–584): closes the handle if open, no-op
otherwise; never fails. -/
def release_camera (_s : CamState) : CamState :=
  { camera := none }

/-- How a successfully started stream terminates. -/
inductive ExitMode where
  | readFail      -- `camera.read()` returns `success = False`: break
  | excStep       -- an exception during capture / encode
  | consumerClose -- the consumer stops reading (GeneratorExit at a yield)
deriving DecidableEq, Repr

/-- One complete loop iteration of `generate_camera_frames` (app.py
603–621): the lock is taken, a frame is captured, encoded and yielded,
and — still inside the `with camera_lock:` block — `time.sleep(0.1)`
runs before the lock is released at the end of the block. -/
def iterOk (f : Nat) : List Ev :=
  [Ev.lockAcq, Ev.capture, Ev.encode, Ev.yieldFrame f, Ev.sleep, Ev.lockRel]

/-- The trace of the streaming loop: `frames` are the successfully
delivered frames, after which the run ends in the given mode.
`consumerClose` interrupts the last iteration at its yield (so its sleep
never runs); closing a generator that was never resumed runs no loop body
at all, which is the (unreachable under a successful acquire) `[]` /
`consumerClose` case. -/
def frameLoop : List Nat → ExitMode → List Ev
  | [], .readFail => [Ev.lockAcq, Ev.capture, Ev.lockRel, Ev.releaseCam]
  | [], .excStep => [Ev.lockAcq, Ev.capture, Ev.camErr, Ev.lockRel, Ev.releaseCam]
  | [], .consumerClose => [Ev.releaseCam]
  | [f], .consumerClose =>
      [Ev.lockAcq, Ev.capture, Ev.encode, Ev.yieldFrame f, Ev.lockRel, Ev.releaseCam]
  | f :: rest, m => iterOk f ++ frameLoop rest m

/-- `generate_camera_frames` (app.py 586–625). `cv2Avail` is
`CV2_AVAILABLE`; `openOk` is whether the device opens. On either failure
the generator yields exactly one diagnostic text payload and returns.
On success it runs the loop and — through the `finally:` block — always
ends by running `release_camera`, so the final handle state is closed. -/
def generate_camera_frames (cv2Avail openOk : Bool) (frames : List Nat)
    (m : ExitMode) (s : CamState) : List Ev × CamState :=
  if cv2Avail = false then
    ([Ev.yieldDiag "Camera not available - OpenCV not installed"], s)
  else
    match init_camera openOk s with
    | (s1, false) =>
        ([Ev.lockAcq, Ev.lockRel,
          Ev.yieldDiag "Camera not available - Failed to initialize"], s1)
    | (_, true) =>
        (Ev.lockAcq :: Ev.lockRel :: frameLoop frames m,
         release_camera { camera := some 0 })

/-- Checks that every `sleep` event of a trace happens while the lock is
held (depth rises on `lockAcq`, falls on `lockRel`). -/
def sleepsLocked : List Ev → Nat → Bool
  | [], _ => true
  | Ev.lockAcq :: tl, d => sleepsLocked tl (d + 1)
  | Ev.lockRel :: tl, d => sleepsLocked tl (d - 1)
  | Ev.sleep :: tl, d => decide (0 < d) && sleepsLocked tl d
  | _ :: tl, d => sleepsLocked tl d

/-- Checks the claim as the spec states it: every `sleep` event of a
trace happens with the lock released (depth zero). -/
def sleepsUnlocked : List Ev → Nat → Bool
  | [], _ => true
  | Ev.lockAcq :: tl, d => sleepsUnlocked tl (d + 1)
  | Ev.lockRel :: tl, d => sleepsUnlocked tl (d - 1)
  | Ev.sleep :: tl, d => decide (d = 0) && sleepsUnlocked tl d
  | _ :: tl, d => sleepsUnlocked tl d

/-- Final lock depth after a trace. -/
def finalDepth : List Ev → Nat → Nat
  | [], d => d
  | Ev.lockAcq :: tl, d => finalDepth tl (d + 1)
  | Ev.lockRel :: tl, d => finalDepth tl (d - 1)
  | _ :: tl, d => finalDepth tl d

/-- Number of `releaseCam` events in a trace. -/
def releaseCount (tr : List Ev) : Nat :=
  tr.countP (fun e => decide (e = Ev.releaseCam))

/-! ## Status Aggregator (app.py lines 169–402 and the
`/api/system/status` route, lines 633–646) -/

/-- Python `round(x, 1)` on exact values: round half to even at one
decimal place. -/
def pyRoundInt (x : ℚ) : ℤ :=
  let f : ℤ := ⌊x⌋
  let r : ℚ := x - (f : ℚ)
  if r < 1 / 2 then f
  else if 1 / 2 < r then f + 1
  else if f % 2 = 0 then f else f + 1

def pyRound1 (x : ℚ) : ℚ := ((pyRoundInt (x * 10) : ℚ)) / 10

/-- Python `int(x)` on a float: truncation toward zero. -/
def pyTrunc (x : ℚ) : ℤ := if 0 ≤ x then ⌊x⌋ else -⌊-x⌋

/-- Result record of `get_system_info`. -/
structure SystemInfo where
  cpuTemp : ℚ
  cpuUsage : ℚ
  memoryUsage : ℚ
  uptime : ℤ
  deviceName : List Char
  status : String
deriving DecidableEq, Repr

/-- Environment of `get_system_info`: outcome of each fallible probe
input. `thermal` is the parsed content of the thermal sysfs file (before
the division by 1000). -/
structure SysEnv where
  thermal : Except PErr ℚ
  psutilAvail : Bool
  cpuPercent : Except PErr ℚ
  virtualMem : Except PErr ℚ
  bootDelta : Except PErr ℚ
  controls : Option (List (List Char))
deriving Repr

/-- The documented full-fallback bundle of `get_system_info`
(app.py 212–219). -/
def sysFallback : SystemInfo :=
  ⟨45, 25, 40, 3600, "CreatureBox".toList, "Error"⟩

/-- The body of `get_system_info`'s outer `try:` (app.py 171–209). -/
def sysBody (e : SysEnv) : Except PErr SystemInfo := do
  let temp : ℚ :=
    match e.thermal with
    | .ok raw => raw / 1000
    | .error _ => 45
  let cu ← if e.psutilAvail then e.cpuPercent else .ok 25
  let mu ← if e.psutilAvail then e.virtualMem else .ok 40
  let up ← if e.psutilAvail then e.bootDelta else .ok 3600
  let cv := read_control_values e.controls
  let name := (dictFind cv "name".toList).getD "CreatureBox".toList
  let status := if temp > 80 then "Warning" else "Online"
  pure ⟨pyRound1 temp, pyRound1 cu, pyRound1 mu, pyTrunc up, name, status⟩

/-- `get_system_info` (app.py 169–219). -/
def get_system_info (e : SysEnv) : SystemInfo :=
  pyTry (sysBody e) sysFallback

/-- Result record of `get_power_info`. -/
structure PowerInfo where
  source : String
  batteryLevel : ℤ
  current : ℚ
  voltage : ℚ
deriving DecidableEq, Repr

inductive PiModel where
  | pi4 | pi5
deriving DecidableEq, Repr

/-- Environment of the PiJuice query block (app.py 304–319): the
`GetStatus` call returns the error code and the (separately fallible)
`status['data']['powerInput']` access; the three reads after it can each
fail independently. -/
structure PJEnv where
  getStatus : Except PErr (String × Except PErr String)
  chargeLevel : Except PErr ℤ
  voltageMilli : Except PErr ℚ
  currentMa : Except PErr ℚ
deriving Repr

structure PowerEnv where
  cpuinfo : Except PErr (Option PiModel)
  pj : PJEnv
deriving Repr

/-- The mutable locals of the PiJuice `try:` block at the moment it is
left (normally or through its `except`). -/
structure PJRead where
  hasPJ : Bool
  bl : ℤ
  cur : ℚ
  volt : ℚ
  src : String
deriving DecidableEq, Repr

def pjInit : PJRead := ⟨false, 0, 0, 0, "Unknown"⟩

/-- The PiJuice query (app.py 303–319): assignments happen one by one, so
an exception part-way leaves `has_pijuice` already `True` with only the
earlier fields filled in. -/
def pjQuery (e : PJEnv) : PJRead :=
  match e.getStatus with
  | .error _ => pjInit
  | .ok (ec, pin) =>
      if ec = "NO_ERROR" then
        match e.chargeLevel with
        | .error _ => { pjInit with hasPJ := true }
        | .ok cl =>
            match e.voltageMilli with
            | .error _ => { pjInit with hasPJ := true, bl := cl }
            | .ok vm =>
                match e.currentMa with
                | .error _ =>
                    ⟨true, cl, 0, vm / 1000, "Unknown"⟩
                | .ok cm =>
                    match pin with
                    | .error _ => ⟨true, cl, cm, vm / 1000, "Unknown"⟩
                    | .ok p =>
                        ⟨true, cl, cm, vm / 1000,
                         if p = "PRESENT" then "External Power" else "Battery"⟩
      else pjInit

/-- The documented power fallback: external power, full battery, no
current draw (app.py 321–326, identical to the outer except at 336–341). -/
def powerFallback : PowerInfo := ⟨"External Power", 100, 0, 5⟩

/-- `get_power_info` (app.py 282–341). -/
def get_power_info (e : PowerEnv) : PowerInfo :=
  match e.cpuinfo with
  | .error _ => powerFallback
  | .ok model =>
      let st := if model = some PiModel.pi4 then pjQuery e.pj else pjInit
      if st.hasPJ = false then powerFallback
      else ⟨st.src, st.bl, st.cur, st.volt⟩

/-- Result record of `get_storage_info`. -/
structure StorageInfo where
  internalTotal : ℤ
  internalUsed : ℤ
  externalConnected : Bool
  externalTotal : ℤ
  externalUsed : ℤ
  photosCount : ℕ
  photosSize : ℤ
deriving DecidableEq, Repr

/-- The fields of an `os.statvfs` result that the code uses. -/
structure VfsStat where
  blocks : ℤ
  bsize : ℤ
  bfree : ℤ
deriving DecidableEq, Repr

/-- One candidate mount point under a user directory: its
`os.path.ismount` answer and its (fallible) `statvfs`. -/
structure MountEnt where
  isMount : Bool
  stat : Except PErr VfsStat
deriving Repr

/-- One entry of a mount root (`/media/<username>`). -/
structure UserEnt where
  isDir : Bool
  mounts : List MountEnt
deriving Repr

/-- One of the scanned roots (`/media`, `/mnt`). -/
structure RootEnt where
  present : Bool
  users : List UserEnt
deriving Repr

/-- Environment of `get_storage_info`. `photoFiles` are the filenames the
`os.walk` yields together with each one's (fallible) `getsize`. -/
structure StorageEnv where
  baseStat : Except PErr VfsStat
  photoFiles : List (String × Except PErr ℤ)
  media : RootEnt
  mnt : RootEnt
deriving Repr

/-- `file.lower().endswith(('.jpg', '.jpeg', '.png', '.bmp'))`. -/
def isImageName (s : String) : Bool :=
  let l := s.toLower
  l.endsWith ".jpg" || l.endsWith ".jpeg" || l.endsWith ".png" || l.endsWith ".bmp"

/-- The photo-walk loop of `get_storage_info` (app.py 234–238). -/
def countPhotos : List (String × Except PErr ℤ) → ℕ → ℤ → Except PErr (ℕ × ℤ)
  | [], c, s => .ok (c, s)
  | (n, szE) :: rest, c, s =>
      if isImageName n then
        match szE with
        | .error x => .error x
        | .ok sz => countPhotos rest (c + 1) (s + sz)
      else countPhotos rest c s

/-- The innermost mount loop (app.py 251–259): the `break` fires after
the first live mount point of this user directory, so scanning stops for
this directory only. -/
def scanMounts (st : Bool × ℤ × ℤ) : List MountEnt → Except PErr (Bool × ℤ × ℤ)
  | [] => .ok st
  | m :: rest =>
      if m.isMount then
        match m.stat with
        | .error x => .error x
        | .ok v => .ok (true, v.blocks * v.bsize,
            v.blocks * v.bsize - v.bfree * v.bsize)
      else scanMounts st rest

/-- The loop over the entries of one root (app.py 248–259): there is no
`break` here, so later user directories keep being scanned and their
mounts overwrite the recorded totals. -/
def scanUsers (st : Bool × ℤ × ℤ) : List UserEnt → Except PErr (Bool × ℤ × ℤ)
  | [] => .ok st
  | u :: rest =>
      if u.isDir then
        match scanMounts st u.mounts with
        | .error x => .error x
        | .ok st' => scanUsers st' rest
      else scanUsers st rest

/-- The loop over one root path (app.py 246–247). -/
def scanRoot (r : RootEnt) (st : Bool × ℤ × ℤ) : Except PErr (Bool × ℤ × ℤ) :=
  if r.present then scanUsers st r.users else .ok st

/-- The all-zero storage fallback (app.py 272–280). -/
def storZero : StorageInfo := ⟨0, 0, false, 0, 0, 0, 0⟩

/-- The body of `get_storage_info`'s `try:` (app.py 223–269). -/
def storBody (e : StorageEnv) : Except PErr StorageInfo :=
  match e.baseStat with
  | .error x => .error x
  | .ok ist =>
      match countPhotos e.photoFiles 0 0 with
      | .error x => .error x
      | .ok (pc, ps) =>
          match scanRoot e.media (false, 0, 0) with
          | .error x => .error x
          | .ok st1 =>
              match scanRoot e.mnt st1 with
              | .error x => .error x
              | .ok st2 =>
                  .ok ⟨ist.blocks * ist.bsize,
                       ist.blocks * ist.bsize - ist.bfree * ist.bsize,
                       st2.1, st2.2.1, st2.2.2, pc, ps⟩

/-- `get_storage_info` (app.py 221–280). -/
def get_storage_info (e : StorageEnv) : StorageInfo :=
  pyTry (storBody e) storZero

/-- First live mount of one user directory. -/
def userFirstMount (u : UserEnt) : Option MountEnt :=
  u.mounts.find? (fun m => m.isMount)

/-- Accumulator step over one user directory: a directory with a live
mount replaces the candidate, one without keeps it. -/
def userFoldStep (a : Option MountEnt) (u : UserEnt) : Option MountEnt :=
  if u.isDir then
    match userFirstMount u with
    | some m => some m
    | none => a
  else a

/-- Accumulator step over one root path. -/
def rootFoldStep (a : Option MountEnt) (r : RootEnt) : Option MountEnt :=
  if r.present then r.users.foldl userFoldStep a else a

/-- The mount whose numbers the code actually reports: the first live
mount of the **last** mount-holding user directory across the scanned
roots (a consequence of the innermost-only `break`). -/
def lastMount (roots : List RootEnt) : Option MountEnt :=
  roots.foldl rootFoldStep none

/-- The statvfs value of a mount, defaulting on error (only used under a
hypothesis that the stat succeeded). -/
def mountStatD (m : MountEnt) : VfsStat :=
  match m.stat with
  | .ok v => v
  | .error _ => ⟨0, 0, 0⟩

/-- The `(external_connected, external_total, external_used)` triple that
a candidate mount (or its absence) denotes. -/
def stOf (st0 : Bool × ℤ × ℤ) : Option MountEnt → Bool × ℤ × ℤ
  | none => st0
  | some m =>
      (true, (mountStatD m).blocks * (mountStatD m).bsize,
       (mountStatD m).blocks * (mountStatD m).bsize -
         (mountStatD m).bfree * (mountStatD m).bsize)

/-- Modelled from the spec: the mount the spec says is reported — “the
first one found” in scan order across the external-mount roots. -/
def specFirstMount (roots : List RootEnt) : Option MountEnt :=
  roots.findSome? (fun r =>
    if r.present then
      r.users.findSome? (fun u => if u.isDir then userFirstMount u else none)
    else none)

/-- The external total the spec's words predict, when the first found
mount's statvfs succeeds. -/
def specFirstTotal (e : StorageEnv) : Option ℤ :=
  (specFirstMount [e.media, e.mnt]).bind (fun m =>
    match m.stat with
    | .ok v => some (v.blocks * v.bsize)
    | .error _ => none)

/-- Result record of `get_schedule_info`. -/
structure ScheduleInfo where
  mode : String
  nextWake : ℤ
  lastPhoto : ℤ
  runtime : String
deriving DecidableEq, Repr

/-- Environment of `get_schedule_info`: marker-file presence, the
(fallible) parsed wake-alarm content, and the photo walk with each
image's (fallible) mtime. -/
structure SchedEnv where
  schedCsv : Option CsvFile
  controls : Option (List (List Char))
  debugMarker : Bool
  offMarker : Bool
  wake : Except PErr ℤ
  photoTimes : List (String × Except PErr ℚ)
deriving Repr

/-- The newest-photo scan (app.py 372–385): tracks the best time and
whether any file beat the initial 0. -/
def newestScan : List (String × Except PErr ℚ) → ℚ → Bool → Except PErr (ℚ × Bool)
  | [], nt, found => .ok (nt, found)
  | (n, tE) :: rest, nt, found =>
      if isImageName n then
        match tE with
        | .error x => .error x
        | .ok t =>
            if t > nt then newestScan rest t true else newestScan rest nt found
      else newestScan rest nt found

/-- `get_schedule_info` (app.py 343–402). The inner `try:` blocks absorb
the wake-alarm and photo-walk failures; nothing outside them can raise,
so the outer except's all-`Unknown` bundle is unreachable. The debug
marker wins over the off marker; absence of both means armed. -/
def get_schedule_info (e : SchedEnv) : ScheduleInfo :=
  let _unusedControls := read_control_values e.controls
  let mode := if e.debugMarker then "DEBUG" else if e.offMarker then "OFF" else "ARMED"
  let nextWake : ℤ :=
    match e.wake with
    | .ok n => n
    | .error _ => 0
  let lastPhoto : ℤ :=
    match newestScan e.photoTimes 0 false with
    | .ok (nt, true) => pyTrunc nt
    | .ok (_, false) => 0
    | .error _ => 0
  let runtime := (dictFind (read_csv_settings e.schedCsv) "runtime").getD "0"
  ⟨mode, nextWake, lastPhoto, runtime⟩

/-- The combined snapshot the `/api/system/status` route returns. -/
structure Snapshot where
  system : SystemInfo
  power : PowerInfo
  storage : StorageInfo
  schedule : ScheduleInfo
deriving DecidableEq, Repr

structure StatusEnv where
  sys : SysEnv
  power : PowerEnv
  storage : StorageEnv
  sched : SchedEnv
deriving Repr

/-- `system_status` (app.py 633–646): runs the four probes and assembles
the snapshot. -/
def system_status (e : StatusEnv) : Snapshot :=
  ⟨get_system_info e.sys, get_power_info e.power,
   get_storage_info e.storage, get_schedule_info e.sched⟩

/-- The route body in the exception monad: none of the four probes can
raise (each one catches internally), so the route itself never
propagates an error. -/
def system_statusE (e : StatusEnv) : Except PErr Snapshot :=
  .ok (system_status e)

/-- Aggregation-level failure condition of `get_system_info`: with psutil
available, one of the psutil calls raises (the only raise sites of the
outer `try:` body). -/
def sysAggFails (e : SysEnv) : Prop :=
  e.psutilAvail = true ∧
    (exOk e.cpuPercent = false ∨ exOk e.virtualMem = false ∨ exOk e.bootDelta = false)

/-! ## Derived definitions used by the theorems -/

/-- Inverse of `splitEq`: join parts with `'='`. -/
def unsplitEq : List (List Char) → List Char
  | [] => []
  | [p] => p
  | p :: ps => p ++ '=' :: unsplitEq ps

/-- Total form of the `write_control_values` update step (defined on
lines that split into exactly two parts). -/
def kvLineUpd (u : List (List Char × List Char)) (l : List Char) : List Char :=
  match splitEq l with
  | [k, _v] =>
      (match dictFind u k with
       | some nv => k ++ '=' :: nv
       | none => l)
  | _ => l

/-- Total form of the `write_csv_settings` row update followed by
`DictWriter` re-serialization, on a valid file: a matching row has its
`VALUE` cell replaced, every other row survives unchanged. -/
def csvRowUpd (header : List String) (u : List (String × String))
    (r : List String) : List String :=
  match dictFind (rowDict header r) "SETTING" with
  | none => r
  | some s =>
      match dictFind u s with
      | none => r
      | some v => (header.zip r).map (fun p => if p.1 = "VALUE" then v else p.2)

/-- A valid tabular settings file in the sense of the spec: a header
containing the `SETTING` and `VALUE` columns (without duplicate column
names) and rectangular rows. -/
def csvValid (f : CsvFile) : Prop :=
  "SETTING" ∈ f.header ∧ "VALUE" ∈ f.header ∧ f.header.Nodup ∧
    ∀ r ∈ f.rows, r.length = f.header.length

/-- A valid `key=value` control-file line: exactly one `'='`, and no
surrounding whitespace (so that `strip()` on read is the identity). -/
def kvLineValid (l : List Char) : Prop :=
  (∃ k v, splitEq l = [k, v]) ∧ stripChars l = l

/-- An update value the `key=value` format can represent: no `'='`, no
newline, and no leading/trailing whitespace. -/
def kvValueValid (v : List Char) : Prop :=
  (∀ c ∈ v, c ≠ '=' ∧ c ≠ '\n' ∧ c ≠ '\r') ∧ stripChars v = v

/-- Concrete environment for the C1 counterexample: a Pi 4 with a
PiJuice whose initial status query succeeds with `NO_ERROR`, but whose
charge-level read then raises; every other probe input is healthy. -/
def envC1cx : StatusEnv :=
  ⟨⟨.ok 50, false, .ok 0, .ok 0, .ok 0, none⟩,
   ⟨.ok (some PiModel.pi4),
    ⟨.ok ("NO_ERROR", .ok "PRESENT"), .error .err, .ok 3700, .ok 150⟩⟩,
   ⟨.ok ⟨0, 0, 0⟩, [], ⟨false, []⟩, ⟨false, []⟩⟩,
   ⟨none, none, false, false, .ok 0, []⟩⟩

/-- Concrete environment in which every fallible probe input fails. -/
def envC1all : StatusEnv :=
  ⟨⟨.error .err, true, .error .err, .error .err, .error .err, none⟩,
   ⟨.error .err, ⟨.error .err, .error .err, .error .err, .error .err⟩⟩,
   ⟨.error .err, [], ⟨false, []⟩, ⟨false, []⟩⟩,
   ⟨none, none, false, false, .error .err, []⟩⟩

/-- Concrete environment for the C9 counterexample: `/media` holds two
user directories, each with one live mount; the first mount's volume has
total size 1 (blocks 1, bsize 1) and the second total size 2. -/
def envC9cx : StorageEnv :=
  ⟨.ok ⟨10, 2, 5⟩, [],
   ⟨true, [⟨true, [⟨true, .ok ⟨1, 1, 0⟩⟩]⟩, ⟨true, [⟨true, .ok ⟨2, 1, 0⟩⟩]⟩]⟩,
   ⟨false, []⟩⟩

/-- The (SETTING, VALUE) pair `read_csv_settings` extracts from one row
of a valid file. -/
def kvOfD (header : List String) (r : List String) : String × String :=
  ((dictFind (rowDict header r) "SETTING").getD "",
   (dictFind (rowDict header r) "VALUE").getD "")

/-- The in-memory row dictionary after `write_csv_settings`'s update
pass (total form, on rows whose `SETTING` lookup succeeds). -/
def csvDictUpd (header : List String) (u : List (String × String))
    (r : List String) : List (String × String) :=
  match dictFind (rowDict header r) "SETTING" with
  | none => rowDict header r
  | some s =>
      match dictFind u s with
      | none => rowDict header r
      | some v => dictSet (rowDict header r) "VALUE" v

/-! # Theorems -/

/-! ## Basic `Except` bind lemmas -/

@[simp]
theorem exBind_ok {α β : Type} (a : α) (f : α → Except PErr β) :
    (Except.ok a >>= f) = f a := rfl

@[simp]
theorem exBind_err {α β : Type} (x : PErr) (f : α → Except PErr β) :
    ((Except.error x : Except PErr α) >>= f) = Except.error x := rfl

/-! ## Camera trace lemmas -/

theorem sleepsLocked_iterOk (f : Nat) (tl : List Ev) (d : Nat) :
    sleepsLocked (iterOk f ++ tl) d = sleepsLocked tl d := by
  simp [iterOk, sleepsLocked]

theorem sleepsLocked_frameLoop (frames : List Nat) (m : ExitMode) :
    sleepsLocked (frameLoop frames m) 0 = true := by
  induction frames with
  | nil => cases m <;> decide
  | cons f rest ih =>
      cases rest with
      | nil => cases m <;> simp [frameLoop, iterOk, sleepsLocked]
      | cons g rest' =>
          show sleepsLocked (iterOk f ++ frameLoop (g :: rest') m) 0 = true
          rw [sleepsLocked_iterOk]
          exact ih

theorem finalDepth_iterOk (f : Nat) (tl : List Ev) (d : Nat) :
    finalDepth (iterOk f ++ tl) d = finalDepth tl d := by
  simp [iterOk, finalDepth]

theorem finalDepth_frameLoop (frames : List Nat) (m : ExitMode) :
    finalDepth (frameLoop frames m) 0 = 0 := by
  induction frames with
  | nil => cases m <;> decide
  | cons f rest ih =>
      cases rest with
      | nil => cases m <;> simp [frameLoop, iterOk, finalDepth]
      | cons g rest' =>
          show finalDepth (iterOk f ++ frameLoop (g :: rest') m) 0 = 0
          rw [finalDepth_iterOk]
          exact ih

theorem itemsOf_append (a b : List Ev) :
    itemsOf (a ++ b) = itemsOf a ++ itemsOf b := by
  simp [itemsOf]

theorem releaseCount_append (a b : List Ev) :
    releaseCount (a ++ b) = releaseCount a + releaseCount b := by
  simp [releaseCount]

theorem frameLoop_ends (frames : List Nat) (m : ExitMode) :
    (frameLoop frames m).getLast? = some Ev.releaseCam ∧
      itemsOf (frameLoop frames m) = frames.map Item.frame ∧
      releaseCount (frameLoop frames m) = 1 := by
  induction frames with
  | nil => cases m <;> exact ⟨rfl, by decide, by decide⟩
  | cons f rest ih =>
      cases rest with
      | nil => cases m <;> simp [frameLoop, iterOk, itemsOf, releaseCount]
      | cons g rest' =>
          have hstep :
              frameLoop (f :: g :: rest') m = iterOk f ++ frameLoop (g :: rest') m := rfl
          obtain ⟨h1, h2, h3⟩ := ih
          refine ⟨?_, ?_, ?_⟩
          · rw [hstep, List.getLast?_append, h1]; rfl
          · rw [hstep, itemsOf_append, h2]
            simp [iterOk, itemsOf]
          · rw [hstep, releaseCount_append, h3]
            simp [iterOk, releaseCount]

/-! ## Claims C2, C3, C4 -/

/-- Claim C2, counterexample. The claim states that the camera lock is
released before the ~100 ms inter-frame sleep. In the source
(app.py 604–621) `time.sleep(0.1)` is indented inside the
`with camera_lock:` block, so in a run that delivers one frame the sleep
event occurs at lock depth 1: the trace fails the claim's own check
(`sleepsUnlocked`) while containing a sleep event. -/
theorem C2_counterexample :
    sleepsUnlocked
        (generate_camera_frames true true [0] ExitMode.readFail ⟨none⟩).1 0 = false ∧
      (generate_camera_frames true true [0] ExitMode.readFail ⟨none⟩).1.contains
          Ev.sleep = true := by
  decide

/-- Claim C2 (amended): after a successful acquire, every inter-frame
sleep of the streaming loop happens while the camera lock is **held**
(the `with camera_lock:` block encloses capture, encode, yield and the
sleep); the lock is only released between iterations and is free when
the stream ends. -/
theorem C2_sleep_inside_lock (frames : List Nat) (m : ExitMode) (s : CamState) :
    sleepsLocked (generate_camera_frames true true frames m s).1 0 = true ∧
      finalDepth (generate_camera_frames true true frames m s).1 0 = 0 := by
  have h : (generate_camera_frames true true frames m s).1 =
      Ev.lockAcq :: Ev.lockRel :: frameLoop frames m := rfl
  rw [h]
  constructor
  · show sleepsLocked (frameLoop frames m) 0 = true
    exact sleepsLocked_frameLoop frames m
  · show finalDepth (frameLoop frames m) 0 = 0
    exact finalDepth_frameLoop frames m

/-- Claim C3: for every way a successfully-acquired stream terminates
(capture failure, an exception during capture/encode, or the consumer
closing the stream), the delivered items are exactly the successfully
captured frames (nothing after the terminating event), `release_camera`
runs exactly once and is the last event of the run, and the module-level
camera handle ends closed. -/
theorem C3_release_on_every_exit (frames : List Nat) (m : ExitMode) (s : CamState) :
    (generate_camera_frames true true frames m s).1.getLast? = some Ev.releaseCam ∧
      itemsOf (generate_camera_frames true true frames m s).1 =
        frames.map Item.frame ∧
      releaseCount (generate_camera_frames true true frames m s).1 = 1 ∧
      (generate_camera_frames true true frames m s).2 = ⟨none⟩ := by
  have h : (generate_camera_frames true true frames m s).1 =
      Ev.lockAcq :: Ev.lockRel :: frameLoop frames m := rfl
  obtain ⟨h1, h2, h3⟩ := frameLoop_ends frames m
  refine ⟨?_, ?_, ?_, rfl⟩
  · rw [h,
      show Ev.lockAcq :: Ev.lockRel :: frameLoop frames m =
        [Ev.lockAcq, Ev.lockRel] ++ frameLoop frames m from rfl,
      List.getLast?_append, h1]
    rfl
  · rw [h]
    show itemsOf (frameLoop frames m) = frames.map Item.frame
    exact h2
  · rw [h]
    show releaseCount (frameLoop frames m) = 1
    exact h3

/-- Claim C4: whenever acquisition fails (OpenCV capability absent, or
device initialization fails), the stream yields exactly one diagnostic
text item and terminates; the camera handle is not left open (on an init
failure `init_camera` resets it to `None`), and running the stream again
from the closed state leaves it closed. -/
theorem C4_acquire_fail_single_diag (cv2 ok : Bool) (frames : List Nat)
    (m : ExitMode) (s : CamState) (h : cv2 = false ∨ ok = false) :
    (∃ msg, itemsOf (generate_camera_frames cv2 ok frames m s).1 = [Item.diag msg]) ∧
      ((generate_camera_frames cv2 ok frames m s).2.camera =
        if cv2 then none else s.camera) ∧
      (s.camera = none →
        ((generate_camera_frames cv2 ok frames m
            ((generate_camera_frames cv2 ok frames m s).2)).2).camera = none) := by
  rcases h with h | h
  · subst h
    exact ⟨⟨"Camera not available - OpenCV not installed", rfl⟩, rfl, fun hs => hs⟩
  · subst h
    cases cv2 with
    | false =>
        exact ⟨⟨"Camera not available - OpenCV not installed", rfl⟩, rfl, fun hs => hs⟩
    | true =>
        exact ⟨⟨"Camera not available - Failed to initialize", rfl⟩, rfl, fun _ => rfl⟩

/-- Witness for C4 at a concrete input: OpenCV present, device open
fails, camera initially closed. -/
theorem C4_witness :
    (∃ msg, itemsOf (generate_camera_frames true false [] ExitMode.readFail
        ⟨none⟩).1 = [Item.diag msg]) ∧
      ((generate_camera_frames true false [] ExitMode.readFail ⟨none⟩).2.camera =
        if true then none else (⟨none⟩ : CamState).camera) ∧
      ((⟨none⟩ : CamState).camera = none →
        ((generate_camera_frames true false [] ExitMode.readFail
            ((generate_camera_frames true false [] ExitMode.readFail ⟨none⟩).2)).2).camera
          = none) :=
  C4_acquire_fail_single_diag true false [] ExitMode.readFail ⟨none⟩ (Or.inr rfl)

/-! ## Claim C5 -/

theorem pyRound1_45 : pyRound1 45 = 45 := by
  norm_num [pyRound1, pyRoundInt]

/-- On an aggregation-level success, `get_system_info` reports the status
decided by the (fallback-substituted) temperature and the rounded
temperature itself. -/
theorem get_system_info_of_ok (e : SysEnv) (h : ¬ sysAggFails e) :
    (get_system_info e).status =
      (if (match e.thermal with | .ok raw => raw / 1000 | .error _ => (45 : ℚ)) > 80
        then "Warning" else "Online") ∧
    (get_system_info e).cpuTemp =
      pyRound1 (match e.thermal with | .ok raw => raw / 1000 | .error _ => (45 : ℚ)) := by
  rcases e with ⟨th, ps, cp, vm, bd, ct⟩
  cases ps with
  | false => simp [get_system_info, sysBody, pyTry]
  | true =>
      cases cp with
      | error e1 => exact absurd ⟨rfl, Or.inl rfl⟩ h
      | ok a =>
          cases vm with
          | error e2 => exact absurd ⟨rfl, Or.inr (Or.inl rfl)⟩ h
          | ok b =>
              cases bd with
              | error e3 => exact absurd ⟨rfl, Or.inr (Or.inr rfl)⟩ h
              | ok c => simp [get_system_info, sysBody, pyTry]

/-- Claim C5: in the compute probe (aggregation succeeding), a
temperature reading strictly above 80.0 °C yields status `Warning`, a
reading of exactly 80.0 yields `Online`, and an unreadable thermal
sensor yields the exact fallback temperature 45.0 with status `Online`. -/
theorem C5_compute_probe (e : SysEnv) (h : ¬ sysAggFails e) :
    (∀ r : ℚ, e.thermal = .ok r → 80 < r / 1000 →
        (get_system_info e).status = "Warning") ∧
      (∀ r : ℚ, e.thermal = .ok r → r / 1000 = 80 →
        (get_system_info e).status = "Online") ∧
      (exOk e.thermal = false →
        (get_system_info e).cpuTemp = 45 ∧ (get_system_info e).status = "Online") := by
  obtain ⟨hs, ht⟩ := get_system_info_of_ok e h
  refine ⟨?_, ?_, ?_⟩
  · intro r hr hgt
    rw [hr] at hs
    simpa [hgt] using hs
  · intro r hr heq
    rw [hr] at hs
    have hng : ¬ (80 < r / 1000) := by rw [heq]; exact lt_irrefl _
    rw [hs, if_neg hng]
  · intro hf
    cases hth : e.thermal with
    | ok a => rw [hth] at hf; exact absurd hf (by simp [exOk])
    | error pe =>
        rw [hth] at hs ht
        constructor
        · rw [ht]; exact pyRound1_45
        · rw [hs]; norm_num

/-- Witness for C5: thermal sensor unreadable, psutil absent. -/
theorem C5_witness :
    (get_system_info ⟨.error .err, false, .ok 0, .ok 0, .ok 0, none⟩).cpuTemp = 45 ∧
      (get_system_info ⟨.error .err, false, .ok 0, .ok 0, .ok 0, none⟩).status
        = "Online" :=
  (C5_compute_probe ⟨.error .err, false, .ok 0, .ok 0, .ok 0, none⟩
      (fun hc => absurd hc.1 (by decide))).2.2 rfl

/-! ## Claim C1 -/

/-- Claim C1, counterexample. The claim says every field is filled with
its documented fallback when its source fails. In `envC1cx` the battery
peripheral fails (its charge-level read raises) after the initial status
query succeeded, yet the power group is `{'Unknown', 0, 0, 0}` — neither
a live reading nor the documented external-power fallback bundle
(`get_power_info`'s `except` path keeps `has_pijuice = True`, app.py
303–326). The snapshot still returns normally. -/
theorem C1_counterexample :
    exOk envC1cx.power.pj.chargeLevel = false ∧
      (system_status envC1cx).power = ⟨"Unknown", 0, 0, 0⟩ ∧
      (system_status envC1cx).power ≠ powerFallback := by
  decide

/-- `get_system_info` on an aggregation-level failure returns the full
fallback bundle with status `Error`. -/
theorem get_system_info_fail (e : SysEnv) (h : sysAggFails e) :
    get_system_info e = sysFallback := by
  obtain ⟨h1, h2⟩ := h
  rcases e with ⟨th, ps, cp, vm, bd, ct⟩
  dsimp at h1
  subst h1
  cases cp with
  | error e1 => simp [get_system_info, sysBody, pyTry]
  | ok a =>
      cases vm with
      | error e2 => simp [get_system_info, sysBody, pyTry]
      | ok b =>
          cases bd with
          | error e3 => simp [get_system_info, sysBody, pyTry]
          | ok c => rcases h2 with h2 | h2 | h2 <;> simp [exOk] at h2

/-- A failing storage probe body yields the all-zero record. -/
theorem get_storage_info_fail (e : StorageEnv) (h : exOk (storBody e) = false) :
    get_storage_info e = storZero := by
  unfold get_storage_info pyTry
  cases hb : storBody e with
  | ok v => rw [hb] at h; exact absurd h (by simp [exOk])
  | error x => rfl

/-- An unreadable internal `statvfs` fails the whole storage body. -/
theorem storBody_err_of_base (e : StorageEnv) (x : PErr)
    (h : e.baseStat = .error x) : storBody e = .error x := by
  simp [storBody, h]

/-- Claim C1 (amended): the snapshot operation never propagates an
error — each probe absorbs its own failures — and every group carries
its documented fallback when its source fails, **except** that a battery
peripheral failing after a successful `NO_ERROR` status query yields
`{'Unknown', 0, 0, 0}` instead of the external-power fallback bundle. -/
theorem C1_amended_snapshot (e : StatusEnv) :
    system_statusE e = .ok (system_status e) ∧
      (sysAggFails e.sys → (system_status e).system = sysFallback) ∧
      (exOk (storBody e.storage) = false → (system_status e).storage = storZero) ∧
      (∀ x, e.storage.baseStat = .error x → (system_status e).storage = storZero) ∧
      (∀ x, e.power.cpuinfo = .error x → (system_status e).power = powerFallback) ∧
      (∀ pm, e.power.cpuinfo = .ok pm → pm ≠ some PiModel.pi4 →
        (system_status e).power = powerFallback) ∧
      (∀ x, e.power.cpuinfo = .ok (some PiModel.pi4) →
        e.power.pj.getStatus = .error x → (system_status e).power = powerFallback) ∧
      (∀ ec pin, e.power.cpuinfo = .ok (some PiModel.pi4) →
        e.power.pj.getStatus = .ok (ec, pin) → ec ≠ "NO_ERROR" →
        (system_status e).power = powerFallback) ∧
      (∀ ec pin x, e.power.cpuinfo = .ok (some PiModel.pi4) →
        e.power.pj.getStatus = .ok (ec, pin) → ec = "NO_ERROR" →
        e.power.pj.chargeLevel = .error x →
        (system_status e).power = ⟨"Unknown", 0, 0, 0⟩) ∧
      (exOk e.sched.wake = false → (system_status e).schedule.nextWake = 0) ∧
      (∀ x, newestScan e.sched.photoTimes 0 false = .error x →
        (system_status e).schedule.lastPhoto = 0) ∧
      (e.sched.schedCsv = none → (system_status e).schedule.runtime = "0") := by
  refine ⟨rfl, ?_, ?_, ?_, ?_, ?_, ?_, ?_, ?_, ?_, ?_, ?_⟩
  · intro h
    exact get_system_info_fail e.sys h
  · intro h
    exact get_storage_info_fail e.storage h
  · intro x h
    refine get_storage_info_fail e.storage ?_
    rw [storBody_err_of_base e.storage x h]
    rfl
  · intro x h
    show get_power_info e.power = powerFallback
    simp [get_power_info, h]
  · intro pm h hne
    show get_power_info e.power = powerFallback
    simp [get_power_info, h, hne, pjInit]
  · intro x h1 h2
    show get_power_info e.power = powerFallback
    simp [get_power_info, h1, pjQuery, h2, pjInit]
  · intro ec pin h1 h2 hne
    show get_power_info e.power = powerFallback
    simp [get_power_info, h1, pjQuery, h2, hne, pjInit]
  · intro ec pin x h1 h2 hec hc
    show get_power_info e.power = ⟨"Unknown", 0, 0, 0⟩
    subst hec
    simp [get_power_info, h1, pjQuery, h2, hc, pjInit]
  · intro h
    cases hw : e.sched.wake with
    | ok n => rw [hw] at h; exact absurd h (by simp [exOk])
    | error x =>
        show (get_schedule_info e.sched).nextWake = 0
        simp [get_schedule_info, hw]
  · intro x h
    show (get_schedule_info e.sched).lastPhoto = 0
    simp [get_schedule_info, h]
  · intro h
    show (get_schedule_info e.sched).runtime = "0"
    simp [get_schedule_info, h, read_csv_settings, dictFind]

/-- Witness for C1 (amended) at the environment where every probe input
fails: the snapshot is still produced, with the documented fallbacks. -/
theorem C1_amended_witness :
    system_statusE envC1all = .ok (system_status envC1all) ∧
      (system_status envC1all).system = sysFallback ∧
      (system_status envC1all).power = powerFallback ∧
      (system_status envC1all).storage = storZero ∧
      (system_status envC1all).schedule.nextWake = 0 ∧
      (system_status envC1all).schedule.runtime = "0" := by
  have h := C1_amended_snapshot envC1all
  exact ⟨h.1,
    h.2.1 ⟨rfl, Or.inl rfl⟩,
    h.2.2.2.2.1 .err rfl,
    h.2.2.2.1 .err rfl,
    h.2.2.2.2.2.2.2.2.2.1 rfl,
    h.2.2.2.2.2.2.2.2.2.2.2 rfl⟩

/-! ## Claim C9 -/

theorem exOk_ok {α : Type} (x : Except PErr α) (h : exOk x = true) :
    ∃ v, x = .ok v := by
  cases x with
  | ok v => exact ⟨v, rfl⟩
  | error e => exact absurd h (by simp [exOk])

/-- Claim C9, counterexample. The claim says the storage probe reports
the totals of the **first** mount point found in scan order. With two
mounted user directories under `/media`, the `break` (app.py 259) only
leaves the innermost loop, so the second directory's mount overwrites
the first: the code reports total 2 while the first mount found in scan
order has total 1. -/
theorem C9_counterexample :
    (get_storage_info envC9cx).externalConnected = true ∧
      (get_storage_info envC9cx).externalTotal = 2 ∧
      specFirstTotal envC9cx = some 1 ∧
      some (get_storage_info envC9cx).externalTotal ≠ specFirstTotal envC9cx := by
  decide

theorem scanMounts_of_find_none (st : Bool × ℤ × ℤ) (ms : List MountEnt)
    (h : ms.find? (fun m => m.isMount) = none) : scanMounts st ms = .ok st := by
  induction ms with
  | nil => rfl
  | cons m rest ih =>
      cases hm : m.isMount with
      | true =>
          rw [List.find?_cons_of_pos _ hm] at h
          exact absurd h (by simp)
      | false =>
          rw [List.find?_cons_of_neg _ (by simp [hm])] at h
          have h1 : scanMounts st (m :: rest) = scanMounts st rest := by
            simp [scanMounts, hm]
          rw [h1]
          exact ih h

theorem scanMounts_of_find_some (st : Bool × ℤ × ℤ) (ms : List MountEnt)
    (m : MountEnt) (v : VfsStat)
    (h : ms.find? (fun m => m.isMount) = some m) (hv : m.stat = .ok v) :
    scanMounts st ms =
      .ok (true, v.blocks * v.bsize, v.blocks * v.bsize - v.bfree * v.bsize) := by
  induction ms with
  | nil => exact absurd h (by simp)
  | cons m0 rest ih =>
      cases hm : m0.isMount with
      | true =>
          rw [List.find?_cons_of_pos _ hm] at h
          injection h with h
          subst h
          simp [scanMounts, hm, hv]
      | false =>
          rw [List.find?_cons_of_neg _ (by simp [hm])] at h
          have h1 : scanMounts st (m0 :: rest) = scanMounts st rest := by
            simp [scanMounts, hm]
          rw [h1]
          exact ih h

theorem scanUsers_fold (us : List UserEnt)
    (h : ∀ u ∈ us, ∀ m ∈ u.mounts, exOk m.stat = true) :
    ∀ (a : Option MountEnt) (st0 : Bool × ℤ × ℤ),
      scanUsers (stOf st0 a) us = .ok (stOf st0 (us.foldl userFoldStep a)) := by
  induction us with
  | nil => intro a st0; rfl
  | cons u rest ih =>
      intro a st0
      have hu := fun m hm => h u (by simp) m hm
      have hrest : ∀ u' ∈ rest, ∀ m ∈ u'.mounts, exOk m.stat = true :=
        fun u' hu' m hm => h u' (by simp [hu']) m hm
      rw [List.foldl_cons]
      cases hd : u.isDir with
      | false =>
          rw [show userFoldStep a u = a from by simp [userFoldStep, hd]]
          have h1 : scanUsers (stOf st0 a) (u :: rest) =
              scanUsers (stOf st0 a) rest := by
            simp [scanUsers, hd]
          rw [h1]
          exact ih hrest a st0
      | true =>
          cases hf : u.mounts.find? (fun m => m.isMount) with
          | none =>
              rw [show userFoldStep a u = a from by
                simp [userFoldStep, hd, userFirstMount, hf]]
              have h1 : scanUsers (stOf st0 a) (u :: rest) =
                  scanUsers (stOf st0 a) rest := by
                simp [scanUsers, hd, scanMounts_of_find_none _ _ hf]
              rw [h1]
              exact ih hrest a st0
          | some m =>
              have hmem : m ∈ u.mounts := List.mem_of_find?_eq_some hf
              obtain ⟨v, hv⟩ := exOk_ok _ (hu m hmem)
              rw [show userFoldStep a u = some m from by
                simp [userFoldStep, hd, userFirstMount, hf]]
              have hst : stOf st0 (some m) =
                  (true, v.blocks * v.bsize,
                    v.blocks * v.bsize - v.bfree * v.bsize) := by
                simp [stOf, mountStatD, hv]
              have h1 : scanUsers (stOf st0 a) (u :: rest) =
                  scanUsers (stOf st0 (some m)) rest := by
                rw [hst]
                simp [scanUsers, hd, scanMounts_of_find_some _ _ m v hf hv]
              rw [h1]
              exact ih hrest (some m) st0

theorem scanRoot_fold (r : RootEnt)
    (h : ∀ u ∈ r.users, ∀ m ∈ u.mounts, exOk m.stat = true)
    (a : Option MountEnt) (st0 : Bool × ℤ × ℤ) :
    scanRoot r (stOf st0 a) = .ok (stOf st0 (rootFoldStep a r)) := by
  unfold scanRoot rootFoldStep
  cases hp : r.present with
  | false => simp
  | true => simpa using scanUsers_fold r.users h a st0

/-- Claim C9 (amended): the storage probe reports
`externalConnected = true` exactly when some live mount point exists
under the scanned roots, but the totals it reports are those of the
first mount of the **last** mount-holding user directory in scan order
(`lastMount`), not of the first mount found; no mount at all yields
`false` with zero totals. -/
theorem C9_amended (e : StorageEnv)
    (hb : exOk e.baseStat = true)
    (hp : exOk (countPhotos e.photoFiles 0 0) = true)
    (hm : ∀ r ∈ [e.media, e.mnt], ∀ u ∈ r.users, ∀ m ∈ u.mounts,
      exOk m.stat = true) :
    (lastMount [e.media, e.mnt] = none →
      (get_storage_info e).externalConnected = false ∧
        (get_storage_info e).externalTotal = 0 ∧
        (get_storage_info e).externalUsed = 0) ∧
      (∀ m v, lastMount [e.media, e.mnt] = some m → m.stat = .ok v →
        (get_storage_info e).externalConnected = true ∧
          (get_storage_info e).externalTotal = v.blocks * v.bsize ∧
          (get_storage_info e).externalUsed =
            v.blocks * v.bsize - v.bfree * v.bsize) := by
  obtain ⟨ist, hist⟩ := exOk_ok _ hb
  obtain ⟨pcs, hpcs⟩ := exOk_ok _ hp
  have hmedia := fun u hu m hmm => hm e.media (by simp) u hu m hmm
  have hmnt := fun u hu m hmm => hm e.mnt (by simp) u hu m hmm
  have hchar : get_storage_info e =
      ⟨ist.blocks * ist.bsize,
       ist.blocks * ist.bsize - ist.bfree * ist.bsize,
       (stOf (false, 0, 0) (lastMount [e.media, e.mnt])).1,
       (stOf (false, 0, 0) (lastMount [e.media, e.mnt])).2.1,
       (stOf (false, 0, 0) (lastMount [e.media, e.mnt])).2.2,
       pcs.1, pcs.2⟩ := by
    have h1 : scanRoot e.media (false, 0, 0) =
        .ok (stOf (false, 0, 0) (rootFoldStep none e.media)) :=
      scanRoot_fold e.media hmedia none (false, 0, 0)
    have h2 : scanRoot e.mnt (stOf (false, 0, 0) (rootFoldStep none e.media)) =
        .ok (stOf (false, 0, 0) (rootFoldStep (rootFoldStep none e.media) e.mnt)) :=
      scanRoot_fold e.mnt hmnt (rootFoldStep none e.media) (false, 0, 0)
    have hlm : lastMount [e.media, e.mnt] =
        rootFoldStep (rootFoldStep none e.media) e.mnt := rfl
    unfold get_storage_info pyTry storBody
    rw [hlm]
    simp only [hist, hpcs, h1, h2]
  constructor
  · intro hnone
    rw [hchar, hnone]
    exact ⟨rfl, rfl, rfl⟩
  · intro m v hsome hv
    rw [hchar, hsome]
    simp [stOf, mountStatD, hv]

/-- Witness for C9 (amended) at a concrete environment with one mounted
user directory. -/
theorem C9_amended_witness :
    (get_storage_info envC9cx).externalConnected = true ∧
      (get_storage_info envC9cx).externalTotal = (2 : ℤ) * 1 ∧
      (get_storage_info envC9cx).externalUsed = (2 : ℤ) * 1 - 0 * 1 :=
  (C9_amended envC9cx (by decide) (by decide) (by decide)).2
    ⟨true, .ok ⟨2, 1, 0⟩⟩ ⟨2, 1, 0⟩ rfl rfl

/-! ## Dictionary lemmas -/

theorem dictFind_dictSet_self {α β : Type} [DecidableEq α]
    (d : List (α × β)) (k : α) (v : β) :
    dictFind (dictSet d k v) k = some v := by
  induction d with
  | nil => simp [dictSet, dictFind]
  | cons p rest ih =>
      obtain ⟨k', v'⟩ := p
      by_cases hk : k' = k
      · subst hk; simp [dictSet, dictFind]
      · simp [dictSet, dictFind, hk, ih]

theorem dictFind_dictSet_ne {α β : Type} [DecidableEq α]
    (d : List (α × β)) (k k' : α) (v : β) (h : k' ≠ k) :
    dictFind (dictSet d k v) k' = dictFind d k' := by
  induction d with
  | nil => simp [dictSet, dictFind, Ne.symm h]
  | cons p rest ih =>
      obtain ⟨k0, v0⟩ := p
      by_cases hk : k0 = k
      · subst hk
        simp [dictSet, dictFind, Ne.symm h]
      · simp [dictSet, dictFind, hk, ih]

theorem dictFind_append {α β : Type} [DecidableEq α]
    (d1 d2 : List (α × β)) (k : α) :
    dictFind (d1 ++ d2) k = (dictFind d1 k).or (dictFind d2 k) := by
  induction d1 with
  | nil => simp [dictFind]
  | cons p rest ih =>
      obtain ⟨k0, v0⟩ := p
      by_cases hk : k0 = k
      · simp [dictFind, hk]
      · simp [dictFind, hk, ih]

theorem dictFind_foldl_set {α β : Type} [DecidableEq α] (ps : List (α × β)) :
    ∀ (d0 : List (α × β)) (k : α),
      dictFind (ps.foldl (fun d p => dictSet d p.1 p.2) d0) k =
        (lastVal ps k).or (dictFind d0 k) := by
  induction ps with
  | nil => intro d0 k; simp [lastVal, dictFind]
  | cons p rest ih =>
      intro d0 k
      rw [List.foldl_cons, ih]
      have hl : lastVal (p :: rest) k = (lastVal rest k).or (dictFind [p] k) := by
        unfold lastVal
        rw [List.reverse_cons, dictFind_append]
      have hset : dictFind (dictSet d0 p.1 p.2) k =
          (dictFind [p] k).or (dictFind d0 k) := by
        by_cases hk : p.1 = k
        · subst hk
          rw [dictFind_dictSet_self]
          simp [dictFind]
        · rw [dictFind_dictSet_ne _ _ _ _ (Ne.symm hk)]
          simp [dictFind, hk]
      rw [hl, hset, Option.or_assoc]

theorem dictFind_dictOfPairs {α β : Type} [DecidableEq α]
    (ps : List (α × β)) (k : α) :
    dictFind (dictOfPairs ps) k = lastVal ps k := by
  unfold dictOfPairs
  rw [dictFind_foldl_set]
  simp [dictFind]

theorem dictFind_map_val {α β : Type} [DecidableEq α] (g : α → β → β)
    (ps : List (α × β)) (k : α) :
    dictFind (ps.map (fun p => (p.1, g p.1 p.2))) k =
      (dictFind ps k).map (g k) := by
  induction ps with
  | nil => simp [dictFind]
  | cons p rest ih =>
      by_cases hk : p.1 = k
      · subst hk; simp [dictFind, ih]
      · simp [dictFind, hk, ih]

theorem lastVal_map_val {α β : Type} [DecidableEq α] (g : α → β → β)
    (ps : List (α × β)) (k : α) :
    lastVal (ps.map (fun p => (p.1, g p.1 p.2))) k =
      (lastVal ps k).map (g k) := by
  unfold lastVal
  rw [← List.map_reverse, dictFind_map_val]

theorem dictFind_mem {α β : Type} [DecidableEq α]
    (ps : List (α × β)) (k : α) (v : β) (h : dictFind ps k = some v) :
    (k, v) ∈ ps := by
  induction ps with
  | nil => simp [dictFind] at h
  | cons p rest ih =>
      obtain ⟨k0, v0⟩ := p
      by_cases hk : k0 = k
      · subst hk
        simp [dictFind] at h
        simp [h]
      · simp only [dictFind, if_neg hk] at h
        exact List.mem_cons_of_mem _ (ih h)

theorem dictFind_of_nodup {α β : Type} [DecidableEq α]
    (ps : List (α × β)) (hnd : (ps.map Prod.fst).Nodup) (k : α) (v : β)
    (h : (k, v) ∈ ps) : dictFind ps k = some v := by
  induction ps with
  | nil => simp at h
  | cons p rest ih =>
      rw [List.map_cons, List.nodup_cons] at hnd
      rcases List.mem_cons.1 h with h | h
      · rw [← h]
        simp [dictFind]
      · have hk : p.1 ≠ k := by
          intro he
          exact hnd.1 (he ▸ List.mem_map_of_mem Prod.fst h)
        simp [dictFind, hk, ih hnd.2 h]

theorem dictFind_eq_none_iff {α β : Type} [DecidableEq α]
    (ps : List (α × β)) (k : α) :
    dictFind ps k = none ↔ k ∉ ps.map Prod.fst := by
  induction ps with
  | nil => simp [dictFind]
  | cons p rest ih =>
      by_cases hk : p.1 = k
      · subst hk; simp [dictFind]
      · simp [dictFind, hk, ih, Ne.symm hk]

theorem lastVal_eq_dictFind_of_nodup {α β : Type} [DecidableEq α]
    (ps : List (α × β)) (hnd : (ps.map Prod.fst).Nodup) (k : α) :
    lastVal ps k = dictFind ps k := by
  cases hd : dictFind ps k with
  | none =>
      rw [dictFind_eq_none_iff] at hd
      unfold lastVal
      rw [dictFind_eq_none_iff, List.map_reverse, List.mem_reverse]
      exact hd
  | some v =>
      have hmem := dictFind_mem ps k v hd
      unfold lastVal
      exact dictFind_of_nodup ps.reverse
        (by rw [List.map_reverse]; exact List.nodup_reverse.2 hnd) k v
        (List.mem_reverse.2 hmem)

theorem mem_dictSet_keys {α β : Type} [DecidableEq α]
    (d : List (α × β)) (k : α) (v : β) (kv : α × β) (h : kv ∈ dictSet d k v) :
    kv.1 ∈ d.map Prod.fst ∨ kv.1 = k := by
  induction d with
  | nil =>
      simp [dictSet] at h
      simp [h]
  | cons p rest ih =>
      obtain ⟨k0, v0⟩ := p
      by_cases hk : k0 = k
      · subst hk
        simp only [dictSet, if_pos rfl] at h
        rcases List.mem_cons.1 h with h | h
        · exact Or.inr (by rw [h])
        · exact Or.inl (by
            rw [List.map_cons]
            exact List.mem_cons_of_mem _ (List.mem_map_of_mem Prod.fst h))
      · simp only [dictSet, if_neg hk] at h
        rcases List.mem_cons.1 h with h | h
        · exact Or.inl (by rw [h, List.map_cons]; exact List.mem_cons_self _ _)
        · rcases ih h with h2 | h2
          · exact Or.inl (by
              rw [List.map_cons]
              exact List.mem_cons_of_mem _ h2)
          · exact Or.inr h2

theorem keys_dictSet_subset {α β : Type} [DecidableEq α]
    (d : List (α × β)) (k : α) (v : β) (x : α)
    (h : x ∈ (dictSet d k v).map Prod.fst) : x ∈ d.map Prod.fst ∨ x = k := by
  obtain ⟨kv, hkv, hx⟩ := List.mem_map.1 h
  rcases mem_dictSet_keys d k v kv hkv with h2 | h2
  · exact Or.inl (hx ▸ h2)
  · exact Or.inr (hx ▸ h2)

theorem mem_dictOfPairs_keys {α β : Type} [DecidableEq α] (ps : List (α × β)) :
    ∀ (d0 : List (α × β)) (x : α),
      x ∈ (ps.foldl (fun d p => dictSet d p.1 p.2) d0).map Prod.fst →
      x ∈ d0.map Prod.fst ∨ x ∈ ps.map Prod.fst := by
  induction ps with
  | nil => intro d0 x h; exact Or.inl h
  | cons p rest ih =>
      intro d0 x h
      rw [List.foldl_cons] at h
      rcases ih (dictSet d0 p.1 p.2) x h with h2 | h2
      · rcases keys_dictSet_subset d0 p.1 p.2 x h2 with h3 | h3
        · exact Or.inl h3
        · exact Or.inr (by rw [List.map_cons, h3]; exact List.mem_cons_self _ _)
      · exact Or.inr (by rw [List.map_cons]; exact List.mem_cons_of_mem _ h2)

/-! ## `mapO` lemmas -/

theorem mapO_eq_none_of_mem {α β : Type} (f : α → Option β) (as : List α)
    (a : α) (ha : a ∈ as) (hf : f a = none) : mapO f as = none := by
  induction as with
  | nil => simp at ha
  | cons b rest ih =>
      rcases List.mem_cons.1 ha with h | h
      · subst h
        simp [mapO, hf]
      · rw [mapO, ih h]
        cases f b <;> rfl

theorem mapO_map {α β : Type} (f : α → Option β) (g : α → β) (as : List α)
    (h : ∀ a ∈ as, f a = some (g a)) : mapO f as = some (as.map g) := by
  induction as with
  | nil => rfl
  | cons b rest ih =>
      rw [mapO, h b (List.mem_cons_self _ _),
        ih (fun a ha => h a (List.mem_cons_of_mem _ ha)), List.map_cons]

theorem mapO_filterMap {α β : Type} (f : α → Option β) (as : List α)
    (h : ∀ a ∈ as, (f a).isSome) : mapO f as = some (as.filterMap f) := by
  induction as with
  | nil => rfl
  | cons b rest ih =>
      obtain ⟨c, hc⟩ := Option.isSome_iff_exists.1 (h b (List.mem_cons_self _ _))
      rw [mapO, hc, ih (fun a ha => h a (List.mem_cons_of_mem _ ha)),
        List.filterMap_cons_some hc]

/-! ## `splitEq` / `stripChars` lemmas -/

theorem splitEq_ne_nil (l : List Char) : splitEq l ≠ [] := by
  cases l with
  | nil => simp [splitEq]
  | cons c rest =>
      by_cases hc : c = '='
      · simp [splitEq, hc]
      · cases hs : splitEq rest with
        | nil => simp [splitEq, hc, hs]
        | cons p ps => simp [splitEq, hc, hs]

theorem splitEq_no_eq (l : List Char) (h : ∀ c ∈ l, c ≠ '=') :
    splitEq l = [l] := by
  induction l with
  | nil => rfl
  | cons c rest ih =>
      have hc : c ≠ '=' := h c (List.mem_cons_self _ _)
      have hr := ih (fun c hc => h c (List.mem_cons_of_mem _ hc))
      simp [splitEq, hc, hr]

theorem splitEq_append_eq (k v : List Char) (hk : ∀ c ∈ k, c ≠ '=') :
    splitEq (k ++ '=' :: v) = k :: splitEq v := by
  induction k with
  | nil => simp [splitEq]
  | cons c rest ih =>
      have hc : c ≠ '=' := hk c (List.mem_cons_self _ _)
      have hr := ih (fun c hc => hk c (List.mem_cons_of_mem _ hc))
      cases hs : splitEq (rest ++ '=' :: v) with
      | nil => exact absurd hs (splitEq_ne_nil _)
      | cons p ps =>
          rw [hs] at hr
          injection hr with h1 h2
          subst h1 h2
          simp [splitEq, hc, hs]

theorem splitEq_parts (l : List Char) :
    ∀ p ∈ splitEq l, ∀ c ∈ p, c ≠ '=' := by
  induction l with
  | nil =>
      intro p hp c hc
      simp [splitEq] at hp
      subst hp
      simp at hc
  | cons a rest ih =>
      intro p hp c hc
      by_cases ha : a = '='
      · rw [splitEq, if_pos ha] at hp
        rcases List.mem_cons.1 hp with h | h
        · subst h; simp at hc
        · exact ih p h c hc
      · rw [splitEq, if_neg ha] at hp
        cases hs : splitEq rest with
        | nil => exact absurd hs (splitEq_ne_nil _)
        | cons q qs =>
            rw [hs] at hp
            rcases List.mem_cons.1 hp with h | h
            · subst h
              rcases List.mem_cons.1 hc with h2 | h2
              · subst h2; exact ha
              · exact ih q (by rw [hs]; exact List.mem_cons_self _ _) c h2
            · exact ih p (by rw [hs]; exact List.mem_cons_of_mem _ h) c hc

theorem unsplitEq_cons_cons (p : List Char) (q : List Char) (ps : List (List Char))
    (c : Char) :
    unsplitEq ((c :: p) :: q :: ps) = c :: unsplitEq (p :: q :: ps) := by
  rfl

theorem unsplitEq_splitEq (l : List Char) : unsplitEq (splitEq l) = l := by
  induction l with
  | nil => rfl
  | cons c rest ih =>
      by_cases hc : c = '='
      · subst hc
        rw [splitEq, if_pos rfl]
        cases hs : splitEq rest with
        | nil => exact absurd hs (splitEq_ne_nil _)
        | cons p ps =>
            rw [hs] at ih
            show '=' :: unsplitEq (p :: ps) = '=' :: rest
            rw [ih]
      · rw [splitEq, if_neg hc]
        cases hs : splitEq rest with
        | nil => exact absurd hs (splitEq_ne_nil _)
        | cons p ps =>
            rw [hs] at ih
            cases ps with
            | nil =>
                show c :: p = c :: rest
                rw [show p = unsplitEq [p] from rfl, ih]
            | cons q qs =>
                rw [unsplitEq_cons_cons, ih]

theorem splitEq_pair (l k v : List Char) (h : splitEq l = [k, v]) :
    l = k ++ '=' :: v := by
  have := unsplitEq_splitEq l
  rw [h] at this
  exact this.symm

theorem mem_stripChars (l : List Char) (c : Char) (h : c ∈ stripChars l) :
    c ∈ l := by
  unfold stripChars at h
  rw [List.mem_reverse] at h
  have h1 := (List.dropWhile_sublist (l := (l.dropWhile isSpaceC).reverse)
    (p := isSpaceC)).mem h
  rw [List.mem_reverse] at h1
  exact (List.dropWhile_sublist (l := l) (p := isSpaceC)).mem h1

theorem dropWhile_eq_self_head (l : List Char)
    (h : l.dropWhile isSpaceC = l) :
    ∀ c, l.head? = some c → isSpaceC c = false := by
  intro c hc
  cases l with
  | nil => simp at hc
  | cons a t =>
      injection hc with hc
      subst hc
      by_contra hb
      rw [Bool.not_eq_false] at hb
      rw [List.dropWhile_cons, if_pos hb] at h
      have hlen := congrArg List.length h
      have hle := (List.dropWhile_sublist (l := t) (p := isSpaceC)).length_le
      simp at hlen
      omega

theorem stripChars_self_parts (l : List Char) (h : stripChars l = l) :
    l.dropWhile isSpaceC = l ∧ l.reverse.dropWhile isSpaceC = l.reverse := by
  unfold stripChars at h
  have hBlen := congrArg List.length h
  simp only [List.length_reverse] at hBlen
  have hAle := (List.dropWhile_sublist (l := l) (p := isSpaceC)).length_le
  have hBle := (List.dropWhile_sublist (l := (l.dropWhile isSpaceC).reverse)
    (p := isSpaceC)).length_le
  rw [List.length_reverse] at hBle
  have hAeq : l.dropWhile isSpaceC = l :=
    (List.dropWhile_suffix _).eq_of_length (by omega)
  refine ⟨hAeq, ?_⟩
  rw [hAeq] at h hBle hBlen
  have hBeq : l.reverse.dropWhile isSpaceC = l.reverse :=
    (List.dropWhile_suffix _).eq_of_length
      (by rw [List.length_reverse]; omega)
  exact hBeq

theorem stripChars_self_head (l : List Char) (h : stripChars l = l) :
    ∀ c, l.head? = some c → isSpaceC c = false :=
  dropWhile_eq_self_head l (stripChars_self_parts l h).1

theorem stripChars_self_last (l : List Char) (h : stripChars l = l) :
    ∀ c, l.getLast? = some c → isSpaceC c = false := by
  intro c hc
  refine dropWhile_eq_self_head l.reverse (stripChars_self_parts l h).2 c ?_
  rw [List.head?_reverse]
  exact hc

theorem stripChars_of_head_last (l : List Char)
    (h1 : ∀ c, l.head? = some c → isSpaceC c = false)
    (h2 : ∀ c, l.getLast? = some c → isSpaceC c = false) :
    stripChars l = l := by
  have d1 : l.dropWhile isSpaceC = l := by
    cases l with
    | nil => rfl
    | cons a t => rw [List.dropWhile_cons, if_neg (by rw [h1 a rfl]; simp)]
  have d2 : l.reverse.dropWhile isSpaceC = l.reverse := by
    cases hr : l.reverse with
    | nil => rfl
    | cons a t =>
        have ha : l.getLast? = some a := by
          rw [← List.head?_reverse, hr]; rfl
        rw [List.dropWhile_cons, if_neg (by rw [h2 a ha]; simp)]
  unfold stripChars
  rw [d1, d2, List.reverse_reverse]

/-! ## Claims C8 and C10 -/

theorem parseLineKV_valid (l : List Char) (hv : kvLineValid l) :
    ∀ k v, splitEq l = [k, v] → parseLineKV l = some (k, v) := by
  intro k v hs
  unfold parseLineKV
  rw [hv.2, hs]

/-- Claim C8: a line without an `'='` separator fails the whole read
(empty mapping, no partial result); a file whose lines all parse yields
the mapping of every key to its value. -/
theorem C8_control_read (lines : List (List Char)) :
    ((∃ l ∈ lines, ∀ c ∈ l, c ≠ '=') → read_control_values (some lines) = []) ∧
      (∀ (_hw : ∀ l ∈ lines, (parseLineKV l).isSome)
        (_hnd : ((lines.filterMap parseLineKV).map Prod.fst).Nodup),
        ∀ l k v, l ∈ lines → parseLineKV l = some (k, v) →
          dictFind (read_control_values (some lines)) k = some v) := by
  constructor
  · intro ⟨l, hl, hno⟩
    have hps : parseLineKV l = none := by
      have hs := splitEq_no_eq (stripChars l)
        (fun c hc => hno c (mem_stripChars l c hc))
      simp [parseLineKV, hs]
    have hred : read_control_values (some lines) =
        (match mapO parseLineKV lines with
         | none => []
         | some ps => dictOfPairs ps) := rfl
    rw [hred, mapO_eq_none_of_mem parseLineKV lines l hl hps]
  · intro hw hnd l k v hl hparse
    have hm : mapO parseLineKV lines = some (lines.filterMap parseLineKV) :=
      mapO_filterMap _ _ hw
    have hred : read_control_values (some lines) =
        (match mapO parseLineKV lines with
         | none => []
         | some ps => dictOfPairs ps) := rfl
    rw [hred, hm, dictFind_dictOfPairs, lastVal_eq_dictFind_of_nodup _ hnd]
    exact dictFind_of_nodup _ hnd k v (List.mem_filterMap.2 ⟨l, hl, hparse⟩)

/-- Witness for C8: a file with a separator-free line reads as the empty
mapping; a well-formed one-line file maps its key to its value. -/
theorem C8_witness :
    read_control_values (some ["noequals".toList]) = [] ∧
      dictFind (read_control_values (some ["name=cb".toList])) "name".toList =
        some "cb".toList := by
  constructor
  · exact (C8_control_read ["noequals".toList]).1
      ⟨"noequals".toList, by simp, by decide⟩
  · exact (C8_control_read ["name=cb".toList]).2 (by decide) (by decide)
      "name=cb".toList "name".toList "cb".toList (by simp) (by decide)

/-- Claim C10: both settings writers are fail-atomic with respect to
their read phase: a missing/unreadable file, or (for the key=value
writer) an existing line without `'='`, makes the write return `false`
with the on-disk state unchanged — the file is only opened for writing
after the whole content was read and updated in memory. -/
theorem C10_write_read_phase_atomic (u : List (String × String))
    (uk : List (List Char × List Char)) :
    write_csv_settings none u = (false, none) ∧
      write_control_values none uk = (false, none) ∧
      (∀ lines : List (List Char), (∃ l ∈ lines, ∀ c ∈ l, c ≠ '=') →
        write_control_values (some lines) uk = (false, some lines)) := by
  refine ⟨rfl, rfl, ?_⟩
  intro lines ⟨l, hl, hno⟩
  have hupd : updLineKV uk (stripChars l) = none := by
    have hs := splitEq_no_eq (stripChars l)
      (fun c hc => hno c (mem_stripChars l c hc))
    simp [updLineKV, hs]
  have hm : mapO (updLineKV uk) (lines.map stripChars) = none :=
    mapO_eq_none_of_mem (updLineKV uk) (lines.map stripChars) (stripChars l)
      (List.mem_map_of_mem _ hl) hupd
  have hred : write_control_values (some lines) uk =
      (match mapO (updLineKV uk) (lines.map stripChars) with
       | none => (false, some lines)
       | some ex' => (true, some ex')) := rfl
  rw [hred, hm]

/-- Witness for C10 at concrete inputs. -/
theorem C10_witness :
    write_csv_settings none ([] : List (String × String)) = (false, none) ∧
      write_control_values none ([] : List (List Char × List Char)) =
        (false, none) ∧
      write_control_values (some ["abc".toList]) [] =
        (false, some ["abc".toList]) := by
  have h := C10_write_read_phase_atomic [] []
  exact ⟨h.1, h.2.1, h.2.2 ["abc".toList] ⟨"abc".toList, by simp, by decide⟩⟩

/-! ## Key=value round-trip machinery -/

theorem write_control_values_char (lines : List (List Char))
    (u : List (List Char × List Char))
    (hv : ∀ l ∈ lines, kvLineValid l) :
    write_control_values (some lines) u =
      (true, some (lines.map (kvLineUpd u))) := by
  have hstrip : lines.map stripChars = lines :=
    (List.map_congr_left (fun l hl => (hv l hl).2)).trans (List.map_id lines)
  have hm : mapO (updLineKV u) (lines.map stripChars) =
      some (lines.map (kvLineUpd u)) := by
    rw [hstrip]
    apply mapO_map
    intro l hl
    obtain ⟨⟨k, v0, hs⟩, htrim⟩ := hv l hl
    simp [updLineKV, kvLineUpd, hs]
  have hred : write_control_values (some lines) u =
      (match mapO (updLineKV u) (lines.map stripChars) with
       | none => (false, some lines)
       | some ex' => (true, some ex')) := rfl
  rw [hred, hm]

theorem parse_kvLineUpd (u : List (List Char × List Char)) (l : List Char)
    (hv : kvLineValid l) (hu : ∀ p ∈ u, kvValueValid p.2) :
    ∀ k v0, splitEq l = [k, v0] →
      parseLineKV (kvLineUpd u l) = some (k, (dictFind u k).getD v0) := by
  intro k v0 hs
  have hkeq : ∀ c ∈ k, c ≠ '=' := fun c hc =>
    splitEq_parts l k (by rw [hs]; exact List.mem_cons_self _ _) c hc
  have hleq : l = k ++ '=' :: v0 := splitEq_pair l k v0 hs
  cases hf : dictFind u k with
  | none =>
      have hid : kvLineUpd u l = l := by simp [kvLineUpd, hs, hf]
      rw [hid, parseLineKV_valid l hv k v0 hs]
      rfl
  | some nv =>
      have hnv : kvValueValid nv := hu (k, nv) (dictFind_mem u k nv hf)
      have hupd : kvLineUpd u l = k ++ '=' :: nv := by simp [kvLineUpd, hs, hf]
      have hnoeqv : ∀ c ∈ nv, c ≠ '=' := fun c hc => (hnv.1 c hc).1
      have hsplit' : splitEq (k ++ '=' :: nv) = [k, nv] := by
        rw [splitEq_append_eq k nv hkeq, splitEq_no_eq nv hnoeqv]
      have hstrip' : stripChars (k ++ '=' :: nv) = k ++ '=' :: nv := by
        apply stripChars_of_head_last
        · intro c hc
          cases k with
          | nil =>
              injection hc with hc
              subst hc
              decide
          | cons a t =>
              injection hc with hc
              subst hc
              apply stripChars_self_head l hv.2
              rw [hleq]
              rfl
        · intro c hc
          cases nv with
          | nil =>
              rw [List.getLast?_concat] at hc
              injection hc with hc
              subst hc
              decide
          | cons b t =>
              rw [List.getLast?_append, List.getLast?_cons_cons] at hc
              cases hx : (b :: t).getLast? with
              | none => simp at hx
              | some d =>
                  rw [hx] at hc
                  simp only [Option.or_some, Option.some.injEq] at hc
                  subst hc
                  exact stripChars_self_last (b :: t) hnv.2 d hx
      rw [hupd]
      unfold parseLineKV
      rw [hstrip', hsplit']
      rfl

theorem mapO_parse_upd (u : List (List Char × List Char))
    (hu : ∀ p ∈ u, kvValueValid p.2) (lines : List (List Char)) :
    (∀ l ∈ lines, kvLineValid l) →
      mapO parseLineKV (lines.map (kvLineUpd u)) =
        some ((lines.filterMap parseLineKV).map
          (fun p => (p.1, (dictFind u p.1).getD p.2))) := by
  induction lines with
  | nil => intro hv; rfl
  | cons l rest ih =>
      intro hv
      obtain ⟨⟨k, v0, hs⟩, htrim⟩ := hv l (List.mem_cons_self _ _)
      have hrest := fun l' hl' => hv l' (List.mem_cons_of_mem _ hl')
      have hpl : parseLineKV l = some (k, v0) :=
        parseLineKV_valid l (hv l (List.mem_cons_self _ _)) k v0 hs
      have hpu : parseLineKV (kvLineUpd u l) = some (k, (dictFind u k).getD v0) :=
        parse_kvLineUpd u l (hv l (List.mem_cons_self _ _)) hu k v0 hs
      rw [List.map_cons, mapO, hpu, ih hrest, List.filterMap_cons_some hpl,
        List.map_cons]

/-! ## CSV machinery -/

theorem zip_get? {α β : Type} :
    ∀ (l1 : List α) (l2 : List β) (j : ℕ),
      (l1.zip l2).get? j =
        (l1.get? j).bind (fun a => (l2.get? j).map (fun b => (a, b))) := by
  intro l1
  induction l1 with
  | nil => intro l2 j; simp
  | cons a t ih =>
      intro l2 j
      cases l2 with
      | nil => simp
      | cons b t2 =>
          cases j with
          | zero => rfl
          | succ j' => simpa using ih t2 j'

theorem dictFind_zip_get :
    ∀ (h : List String), h.Nodup →
      ∀ (r : List String) (j : ℕ) (fn : String), r.length = h.length →
        h.get? j = some fn → dictFind (h.zip r) fn = r.get? j := by
  intro h
  induction h with
  | nil => intro _ r j fn hlen hj; simp at hj
  | cons f0 h' ih =>
      intro hnd r j fn hlen hj
      rw [List.nodup_cons] at hnd
      cases r with
      | nil => simp at hlen
      | cons x r' =>
          cases j with
          | zero =>
              injection hj with hj
              subst hj
              simp [dictFind]
          | succ j' =>
              have hfn : fn ∈ h' := List.get?_mem hj
              have hne : f0 ≠ fn := fun he => hnd.1 (he ▸ hfn)
              show dictFind ((f0, x) :: h'.zip r') fn = (x :: r').get? (j' + 1)
              simp only [dictFind, if_neg hne, List.get?_cons_succ]
              exact ih hnd.2 r' j' fn (by simpa using hlen) hj

theorem rowDict_find (h : List String) (r : List String) (hnd : h.Nodup)
    (hlen : r.length = h.length) (fn : String) :
    dictFind (rowDict h r) fn = dictFind (h.zip r) fn := by
  unfold rowDict
  rw [dictFind_dictOfPairs, lastVal_eq_dictFind_of_nodup]
  rw [List.map_fst_zip _ _ (le_of_eq hlen.symm)]
  exact hnd

theorem rowDict_find_pos (h r : List String) (fn : String) (j : ℕ) (x : String)
    (hnd : h.Nodup) (hlen : r.length = h.length)
    (hj : h.get? j = some fn) (hx : r.get? j = some x) :
    dictFind (rowDict h r) fn = some x := by
  rw [rowDict_find h r hnd hlen, dictFind_zip_get h hnd r j fn hlen hj, hx]

theorem rowDict_find_isSome (h r : List String) (fn : String)
    (hnd : h.Nodup) (hlen : r.length = h.length) (hfn : fn ∈ h) :
    ∃ x, dictFind (rowDict h r) fn = some x := by
  obtain ⟨j, hj⟩ := List.get?_of_mem hfn
  have hjlt : j < h.length := List.get?_eq_some.1 hj |>.1
  have hx : r.get? j = some (r.get ⟨j, by rw [hlen]; exact hjlt⟩) :=
    List.get?_eq_get (by rw [hlen]; exact hjlt)
  exact ⟨_, rowDict_find_pos h r fn j _ hnd hlen hj hx⟩

theorem writerow_output (h : List String) :
    ∀ (r : List String) (d : List (String × String))
      (g : String × String → String),
      r.length = h.length →
      (∀ j fn x, h.get? j = some fn → r.get? j = some x →
        dictFind d fn = some (g (fn, x))) →
      h.map (fun fn => (dictFind d fn).getD "") = (h.zip r).map g := by
  induction h with
  | nil => intro r d g hlen hpt; simp
  | cons f0 h' ih =>
      intro r d g hlen hpt
      cases r with
      | nil => simp at hlen
      | cons x r' =>
          have h0 := hpt 0 f0 x rfl rfl
          rw [List.map_cons, List.zip_cons_cons, List.map_cons, h0]
          simp only [Option.getD_some]
          congr 1
          exact ih r' d g (by simpa using hlen)
            (fun j fn y hj hy => hpt (j + 1) fn y (by simpa using hj)
              (by simpa using hy))

theorem rowDict_keys_sub (h : List String) (r : List String)
    (hlen : r.length = h.length) (kv : String × String)
    (hkv : kv ∈ rowDict h r) : kv.1 ∈ h := by
  rcases mem_dictOfPairs_keys (h.zip r) [] kv.1
      (List.mem_map_of_mem Prod.fst hkv) with h2 | h2
  · simp at h2
  · rw [List.map_fst_zip _ _ (le_of_eq hlen.symm)] at h2
    exact h2

theorem writerow_rowDict (h : List String) (r : List String) (hnd : h.Nodup)
    (hlen : r.length = h.length) :
    writerow h (rowDict h r) = some r := by
  unfold writerow
  have hguard : (rowDict h r).all (fun kv => decide (kv.1 ∈ h)) = true := by
    rw [List.all_eq_true]
    intro kv hkv
    exact decide_eq_true (rowDict_keys_sub h r hlen kv hkv)
  rw [hguard, if_pos rfl]
  have hout : h.map (fun fn => (dictFind (rowDict h r) fn).getD "") =
      (h.zip r).map Prod.snd := by
    apply writerow_output h r _ Prod.snd hlen
    intro j fn x hj hx
    exact rowDict_find_pos h r fn j x hnd hlen hj hx
  rw [hout, List.map_snd_zip _ _ (le_of_eq hlen)]

theorem writerow_setValue (h r : List String) (hnd : h.Nodup)
    (hlen : r.length = h.length) (hVal : "VALUE" ∈ h) (nv : String) :
    writerow h (dictSet (rowDict h r) "VALUE" nv) =
      some ((h.zip r).map (fun p => if p.1 = "VALUE" then nv else p.2)) := by
  unfold writerow
  have hguard : (dictSet (rowDict h r) "VALUE" nv).all
      (fun kv => decide (kv.1 ∈ h)) = true := by
    rw [List.all_eq_true]
    intro kv hkv
    rcases mem_dictSet_keys _ _ _ kv hkv with h2 | h2
    · obtain ⟨kv0, hkv0, he⟩ := List.mem_map.1 h2
      exact decide_eq_true (he ▸ rowDict_keys_sub h r hlen kv0 hkv0)
    · exact decide_eq_true (h2 ▸ hVal)
  rw [hguard, if_pos rfl]
  congr 1
  apply writerow_output h r _ (fun p => if p.1 = "VALUE" then nv else p.2) hlen
  intro j fn x hj hx
  by_cases hfv : fn = "VALUE"
  · subst hfv
    rw [dictFind_dictSet_self]
    simp
  · rw [dictFind_dictSet_ne _ _ _ _ hfv,
      rowDict_find_pos h r fn j x hnd hlen hj hx]
    simp [hfv]

theorem mapO_comp_map {α β γ : Type} (g : β → Option γ) (f : α → β)
    (as : List α) : mapO g (as.map f) = mapO (fun a => g (f a)) as := by
  induction as with
  | nil => rfl
  | cons a rest ih => rw [List.map_cons, mapO, mapO, ih]

theorem writerowsSeq_map (fields : List String) (rows : List (List String))
    (fd : List String → List (String × String)) (fr : List String → List String)
    (hrow : ∀ r ∈ rows, writerow fields (fd r) = some (fr r)) :
    writerowsSeq fields (rows.map fd) = .ok (rows.map fr) := by
  induction rows with
  | nil => rfl
  | cons r rest ih =>
      rw [List.map_cons, writerowsSeq, hrow r (List.mem_cons_self _ _),
        ih (fun r' hr' => hrow r' (List.mem_cons_of_mem _ hr')), List.map_cons]

theorem csvReadRows_char (h : List String) :
    ∀ (rows : List (List String)) (acc : List (String × String)),
      (∀ r ∈ rows, (dictFind (rowDict h r) "SETTING").isSome ∧
        (dictFind (rowDict h r) "VALUE").isSome) →
      csvReadRows h rows acc =
        some (rows.foldl
          (fun a r => dictSet a (kvOfD h r).1 (kvOfD h r).2) acc) := by
  intro rows
  induction rows with
  | nil => intro acc _; rfl
  | cons r rs ih =>
      intro acc hv
      obtain ⟨hS, hV⟩ := hv r (List.mem_cons_self _ _)
      obtain ⟨k, hk⟩ := Option.isSome_iff_exists.1 hS
      obtain ⟨v, hv2⟩ := Option.isSome_iff_exists.1 hV
      have hkv : kvOfD h r = (k, v) := by simp [kvOfD, hk, hv2]
      rw [List.foldl_cons, hkv]
      have hred : csvReadRows h (r :: rs) acc =
          csvReadRows h rs (dictSet acc k v) := by
        simp only [csvReadRows, hk, hv2]
      rw [hred]
      exact ih (dictSet acc k v) (fun r' hr' => hv r' (List.mem_cons_of_mem _ hr'))

theorem csvValid_isSome (f : CsvFile) (hv : csvValid f) :
    ∀ r ∈ f.rows, (dictFind (rowDict f.header r) "SETTING").isSome ∧
      (dictFind (rowDict f.header r) "VALUE").isSome := by
  obtain ⟨hS, hV, hnd, hrect⟩ := hv
  intro r hr
  obtain ⟨x, hx⟩ := rowDict_find_isSome f.header r "SETTING" hnd (hrect r hr) hS
  obtain ⟨y, hy⟩ := rowDict_find_isSome f.header r "VALUE" hnd (hrect r hr) hV
  rw [hx, hy]
  exact ⟨rfl, rfl⟩

theorem read_csv_settings_char (f : CsvFile) (hv : csvValid f) :
    read_csv_settings (some f) = dictOfPairs (f.rows.map (kvOfD f.header)) := by
  have hred : read_csv_settings (some f) =
      (match csvReadRows f.header f.rows [] with
       | none => []
       | some s => s) := rfl
  rw [hred, csvReadRows_char f.header f.rows [] (csvValid_isSome f hv)]
  unfold dictOfPairs
  rw [List.foldl_map]

theorem write_csv_settings_char (f : CsvFile) (u : List (String × String))
    (hv : csvValid f) :
    write_csv_settings (some f) u =
      (true, some ⟨f.header, f.rows.map (csvRowUpd f.header u)⟩) := by
  obtain ⟨hS, hV, hnd, hrect⟩ := hv
  have hm : mapO (updRowCsv u) (f.rows.map (rowDict f.header)) =
      some (f.rows.map (csvDictUpd f.header u)) := by
    rw [mapO_comp_map]
    apply mapO_map
    intro r hr
    obtain ⟨s, hs⟩ := rowDict_find_isSome f.header r "SETTING" hnd (hrect r hr) hS
    cases hu : dictFind u s with
    | none => simp [updRowCsv, csvDictUpd, hs, hu]
    | some nv => simp [updRowCsv, csvDictUpd, hs, hu]
  have hw : writerowsSeq f.header (f.rows.map (csvDictUpd f.header u)) =
      .ok (f.rows.map (csvRowUpd f.header u)) := by
    apply writerowsSeq_map
    intro r hr
    obtain ⟨s, hs⟩ := rowDict_find_isSome f.header r "SETTING" hnd (hrect r hr) hS
    cases hu : dictFind u s with
    | none =>
        have h1 : csvDictUpd f.header u r = rowDict f.header r := by
          simp [csvDictUpd, hs, hu]
        have h2 : csvRowUpd f.header u r = r := by
          simp [csvRowUpd, hs, hu]
        rw [h1, h2]
        exact writerow_rowDict f.header r hnd (hrect r hr)
    | some nv =>
        have h1 : csvDictUpd f.header u r =
            dictSet (rowDict f.header r) "VALUE" nv := by
          simp [csvDictUpd, hs, hu]
        have h2 : csvRowUpd f.header u r =
            (f.header.zip r).map (fun p => if p.1 = "VALUE" then nv else p.2) := by
          simp [csvRowUpd, hs, hu]
        rw [h1, h2]
        exact writerow_setValue f.header r hnd (hrect r hr) hV nv
  have hred : write_csv_settings (some f) u =
      (match mapO (updRowCsv u) (f.rows.map (rowDict f.header)) with
       | none => (false, some f)
       | some dicts' =>
          match writerowsSeq f.header dicts' with
          | .error partRows => (false, some ⟨f.header, partRows⟩)
          | .ok rows' => (true, some ⟨f.header, rows'⟩)) := rfl
  rw [hred, hm]
  show (match writerowsSeq f.header (f.rows.map (csvDictUpd f.header u)) with
        | Except.error partRows =>
            ((false : Bool), some (CsvFile.mk f.header partRows))
        | Except.ok rows' => ((true : Bool), some (CsvFile.mk f.header rows'))) =
    ((true : Bool), some (CsvFile.mk f.header (f.rows.map (csvRowUpd f.header u))))
  rw [hw]

theorem get?_some_of_lt {α : Type} (l : List α) (j : ℕ) (hj : j < l.length) :
    ∃ x, l.get? j = some x :=
  ⟨l.get ⟨j, hj⟩, List.get?_eq_get hj⟩

theorem csvRowUpd_length (h : List String) (u : List (String × String))
    (r : List String) (hlen : r.length = h.length) :
    (csvRowUpd h u r).length = h.length := by
  unfold csvRowUpd
  cases hs : dictFind (rowDict h r) "SETTING" with
  | none => simpa using hlen
  | some s =>
      cases hu : dictFind u s with
      | none => simpa [hu] using hlen
      | some nv => simp [hu, List.length_zip, hlen]

theorem kvOfD_csvRowUpd (h : List String) (u : List (String × String))
    (r : List String) (hnd : h.Nodup) (hlen : r.length = h.length)
    (hS : "SETTING" ∈ h) (hV : "VALUE" ∈ h) :
    kvOfD h (csvRowUpd h u r) =
      ((kvOfD h r).1, (dictFind u (kvOfD h r).1).getD (kvOfD h r).2) := by
  obtain ⟨s, hs⟩ := rowDict_find_isSome h r "SETTING" hnd hlen hS
  obtain ⟨w, hw⟩ := rowDict_find_isSome h r "VALUE" hnd hlen hV
  have hk1 : (kvOfD h r).1 = s := by simp [kvOfD, hs]
  have hk2 : (kvOfD h r).2 = w := by simp [kvOfD, hw]
  cases hu : dictFind u s with
  | none =>
      have hid : csvRowUpd h u r = r := by simp [csvRowUpd, hs, hu]
      rw [hid, hk1, hk2, hu]
      simp [kvOfD, hs, hw]
  | some nv =>
      have hupd : csvRowUpd h u r =
          (h.zip r).map (fun p => if p.1 = "VALUE" then nv else p.2) := by
        simp [csvRowUpd, hs, hu]
      rw [hupd, hk1, hk2, hu]
      have hlen' : ((h.zip r).map
          (fun p => if p.1 = "VALUE" then nv else p.2)).length = h.length := by
        simp [List.length_zip, hlen]
      obtain ⟨j1, hj1⟩ := List.get?_of_mem hS
      obtain ⟨j2, hj2⟩ := List.get?_of_mem hV
      have hj1l : j1 < h.length := (List.get?_eq_some.1 hj1).1
      have hj2l : j2 < h.length := (List.get?_eq_some.1 hj2).1
      obtain ⟨x1, hx1⟩ := get?_some_of_lt r j1 (by rw [hlen]; exact hj1l)
      obtain ⟨x2, hx2⟩ := get?_some_of_lt r j2 (by rw [hlen]; exact hj2l)
      have hsx : s = x1 :=
        Option.some.inj (hs.symm.trans
          (rowDict_find_pos h r "SETTING" j1 x1 hnd hlen hj1 hx1))
      have hg1 : ((h.zip r).map
          (fun p => if p.1 = "VALUE" then nv else p.2)).get? j1 = some x1 := by
        rw [List.get?_map, zip_get?, hj1, hx1]
        show some (if ("SETTING" : String) = "VALUE" then nv else x1) = some x1
        rw [if_neg (by decide)]
      have hg2 : ((h.zip r).map
          (fun p => if p.1 = "VALUE" then nv else p.2)).get? j2 = some nv := by
        rw [List.get?_map, zip_get?, hj2, hx2]
        show some (if ("VALUE" : String) = "VALUE" then nv else x2) = some nv
        rw [if_pos rfl]
      have hf1 := rowDict_find_pos h _ "SETTING" j1 x1 hnd hlen' hj1 hg1
      have hf2 := rowDict_find_pos h _ "VALUE" j2 nv hnd hlen' hj2 hg2
      simp [kvOfD, hf1, hf2, hsx]

/-! ## Claims C6 and C7 -/

/-- Claim C6, counterexample. The claim quantifies over *every* update
mapping. An update value containing `'='` (here `a=b`) is written
successfully, but the resulting line `name=a=b` splits into three parts,
so the whole re-read fails to the empty mapping: re-reading does not
yield the updated value for the pre-existing key `name`. -/
theorem C6_counterexample :
    (write_control_values (some ["name=cb".toList])
        [("name".toList, "a=b".toList)]).1 = true ∧
      read_control_values (write_control_values (some ["name=cb".toList])
        [("name".toList, "a=b".toList)]).2 = [] ∧
      dictFind (read_control_values (write_control_values
        (some ["name=cb".toList]) [("name".toList, "a=b".toList)]).2)
        "name".toList = none := by
  decide

/-- Claim C6 (amended): the write-then-re-read round trip holds for every
valid tabular file with any update mapping, and for every valid
`key=value` file with update mappings whose values contain no `'='` or
newline and no surrounding whitespace; re-reading yields the updated
value for every key that existed before, and rows/lines whose key is not
updated are kept identical, in their original position. -/
theorem C6_roundtrip :
    (∀ (f : CsvFile) (u : List (String × String)), csvValid f →
      (write_csv_settings (some f) u).1 = true ∧
      (∀ r ∈ f.rows, ∀ s, dictFind (rowDict f.header r) "SETTING" = some s →
        dictFind u s = none → csvRowUpd f.header u r = r) ∧
      (∀ k v, dictFind (read_csv_settings (some f)) k = some v →
        dictFind (read_csv_settings (write_csv_settings (some f) u).2) k =
          some ((dictFind u k).getD v))) ∧
    (∀ (lines : List (List Char)) (u : List (List Char × List Char)),
      (∀ l ∈ lines, kvLineValid l) → (∀ p ∈ u, kvValueValid p.2) →
      (write_control_values (some lines) u).1 = true ∧
      (∀ l ∈ lines, ∀ k v0, splitEq l = [k, v0] → dictFind u k = none →
        kvLineUpd u l = l) ∧
      (∀ k v, dictFind (read_control_values (some lines)) k = some v →
        dictFind (read_control_values
          (write_control_values (some lines) u).2) k =
          some ((dictFind u k).getD v))) := by
  constructor
  · intro f u hv
    have hchar := write_csv_settings_char f u hv
    obtain ⟨hS, hV, hnd, hrect⟩ := hv
    refine ⟨by rw [hchar], ?_, ?_⟩
    · intro r _hr s hs hu
      simp [csvRowUpd, hs, hu]
    · intro k v hkv
      rw [hchar]
      have hv' : csvValid ⟨f.header, f.rows.map (csvRowUpd f.header u)⟩ := by
        refine ⟨hS, hV, hnd, ?_⟩
        intro r' hr'
        obtain ⟨r, hr, he⟩ := List.mem_map.1 hr'
        rw [← he]
        exact csvRowUpd_length f.header u r (hrect r hr)
      rw [read_csv_settings_char _ hv']
      rw [read_csv_settings_char f ⟨hS, hV, hnd, hrect⟩] at hkv
      rw [dictFind_dictOfPairs] at hkv ⊢
      have hmaps : (f.rows.map (csvRowUpd f.header u)).map (kvOfD f.header) =
          (f.rows.map (kvOfD f.header)).map
            (fun p => (p.1, (fun k w => (dictFind u k).getD w) p.1 p.2)) := by
        rw [List.map_map, List.map_map]
        apply List.map_congr_left
        intro r hr
        exact kvOfD_csvRowUpd f.header u r hnd (hrect r hr) hS hV
      rw [show (⟨f.header, f.rows.map (csvRowUpd f.header u)⟩ : CsvFile).rows =
        f.rows.map (csvRowUpd f.header u) from rfl]
      rw [hmaps, lastVal_map_val (fun k w => (dictFind u k).getD w)
        (f.rows.map (kvOfD f.header)) k, hkv]
      rfl
  · intro lines u hv hu
    have hchar := write_control_values_char lines u hv
    refine ⟨by rw [hchar], ?_, ?_⟩
    · intro l _hl k v0 hs hf
      simp [kvLineUpd, hs, hf]
    · intro k v hkv
      rw [hchar]
      have hw : ∀ l ∈ lines, (parseLineKV l).isSome := by
        intro l hl
        obtain ⟨⟨k0, v0, hs⟩, _ht⟩ := hv l hl
        rw [parseLineKV_valid l (hv l hl) k0 v0 hs]
        rfl
      have hro : read_control_values (some lines) =
          dictOfPairs (lines.filterMap parseLineKV) := by
        have hred : read_control_values (some lines) =
            (match mapO parseLineKV lines with
             | none => []
             | some ps => dictOfPairs ps) := rfl
        rw [hred, mapO_filterMap _ _ hw]
      have hrw : read_control_values (some (lines.map (kvLineUpd u))) =
          dictOfPairs ((lines.filterMap parseLineKV).map
            (fun p => (p.1, (fun k w => (dictFind u k).getD w) p.1 p.2))) := by
        have hred : read_control_values (some (lines.map (kvLineUpd u))) =
            (match mapO parseLineKV (lines.map (kvLineUpd u)) with
             | none => []
             | some ps => dictOfPairs ps) := rfl
        rw [hred, mapO_parse_upd u hu lines hv]
      rw [hro, dictFind_dictOfPairs] at hkv
      rw [hrw, dictFind_dictOfPairs, lastVal_map_val
        (fun k w => (dictFind u k).getD w) (lines.filterMap parseLineKV) k, hkv]
      rfl

/-- Witness for C6 (amended): the spec §8 end-to-end tabular example and
a one-line control file. -/
theorem C6_witness :
    dictFind (read_csv_settings (write_csv_settings
        (some ⟨["SETTING", "VALUE"], [["interval", "30"], ["mode", "auto"]]⟩)
        [("interval", "60")]).2) "interval" = some "60" ∧
      dictFind (read_control_values (write_control_values
        (some ["name=cb".toList]) [("name".toList, "newbox".toList)]).2)
        "name".toList = some "newbox".toList := by
  constructor
  · have h := (C6_roundtrip.1
      ⟨["SETTING", "VALUE"], [["interval", "30"], ["mode", "auto"]]⟩
      [("interval", "60")] (by unfold csvValid; decide)).2.2
      "interval" "30" (by decide)
    simpa using h
  · have h := (C6_roundtrip.2 ["name=cb".toList]
      [("name".toList, "newbox".toList)]
      (by
        intro l hl
        rw [List.mem_singleton] at hl
        subst hl
        exact ⟨⟨"name".toList, "cb".toList, by decide⟩, by decide⟩)
      (by
        intro p hp
        rw [List.mem_singleton] at hp
        subst hp
        exact ⟨by decide, by decide⟩)).2.2 "name".toList "cb".toList (by decide)
    simpa using h

/-- Claim C7: both writers are update-only and never insert: the written
file is a per-row/per-line map of the old one (same count, original
order); a row/line whose key is absent from the update mapping survives
unchanged, and a matching one changes only its value field. -/
theorem C7_update_only :
    (∀ (f : CsvFile) (u : List (String × String)), csvValid f →
      write_csv_settings (some f) u =
        (true, some ⟨f.header, f.rows.map (csvRowUpd f.header u)⟩) ∧
      (f.rows.map (csvRowUpd f.header u)).length = f.rows.length ∧
      (∀ r ∈ f.rows, ∀ s, dictFind (rowDict f.header r) "SETTING" = some s →
        (dictFind u s = none → csvRowUpd f.header u r = r) ∧
        (∀ nv, dictFind u s = some nv →
          csvRowUpd f.header u r =
            (f.header.zip r).map (fun p => if p.1 = "VALUE" then nv else p.2) ∧
          (csvRowUpd f.header u r).length = r.length))) ∧
    (∀ (lines : List (List Char)) (u : List (List Char × List Char)),
      (∀ l ∈ lines, kvLineValid l) →
      write_control_values (some lines) u =
        (true, some (lines.map (kvLineUpd u))) ∧
      (lines.map (kvLineUpd u)).length = lines.length ∧
      (∀ l ∈ lines, ∀ k v0, splitEq l = [k, v0] →
        (dictFind u k = none → kvLineUpd u l = l) ∧
        (∀ nv, dictFind u k = some nv → kvLineUpd u l = k ++ '=' :: nv))) := by
  constructor
  · intro f u hv
    refine ⟨write_csv_settings_char f u hv, List.length_map _ _, ?_⟩
    intro r hr s hs
    refine ⟨fun hu => by simp [csvRowUpd, hs, hu], ?_⟩
    intro nv hu
    refine ⟨by simp [csvRowUpd, hs, hu], ?_⟩
    rw [show csvRowUpd f.header u r =
        (f.header.zip r).map (fun p => if p.1 = "VALUE" then nv else p.2) from by
      simp [csvRowUpd, hs, hu]]
    have hr2 := hv.2.2.2 r hr
    simp [List.length_zip, hr2]
  · intro lines u hv
    refine ⟨write_control_values_char lines u hv, List.length_map _ _, ?_⟩
    intro l _hl k v0 hs
    exact ⟨fun hu => by simp [kvLineUpd, hs, hu],
           fun nv hu => by simp [kvLineUpd, hs, hu]⟩

/-- Witness for C7: an update whose key matches no row/line leaves both
concrete files untouched (row/line count stable, nothing appended). -/
theorem C7_witness :
    write_csv_settings
        (some ⟨["SETTING", "VALUE"], [["interval", "30"], ["mode", "auto"]]⟩)
        [("gain", "5")] =
      (true, some ⟨["SETTING", "VALUE"], [["interval", "30"], ["mode", "auto"]]⟩) ∧
      write_control_values (some ["name=cb".toList])
        [("zzz".toList, "1".toList)] = (true, some ["name=cb".toList]) := by
  constructor
  · have h := (C7_update_only.1
      ⟨["SETTING", "VALUE"], [["interval", "30"], ["mode", "auto"]]⟩
      [("gain", "5")] (by unfold csvValid; decide)).1
    rw [h]
    decide
  · have h := (C7_update_only.2 ["name=cb".toList] [("zzz".toList, "1".toList)]
      (by
        intro l hl
        rw [List.mem_singleton] at hl
        subst hl
        exact ⟨⟨"name".toList, "cb".toList, by decide⟩, by decide⟩)).1
    rw [h]
    decide
